import Mathlib

/-!
The LSP manager of the meh editor.

A shallow embedding of `src/lsp_manager.cpp` (class `LSPManager`) and of the
parts of Qt it relies on (`QMap`, `QList::takeAt`, `QTime`, `QFileInfo::suffix`).

* Heap objects (`LSP*`) are values carrying the address they were allocated at.
* What the environment decides (the wall clock, whether a server process
  starts) is an explicit argument of the operation that asks for it.
* A call that dereferences a null `window`, or fails a `Q_ASSERT`, has no
  result (`none`).
* Calls made on collaborators (status bar, protocol clients) are recorded, in
  order, in the state.
-/

namespace Meh

/-! ## Qt containers -/

/-- The order a `QMap` keeps its keys in: `operator<` of the key type. -/
class QMapKey (κ : Type) where
  lt : κ → κ → Bool

instance : QMapKey Int := ⟨fun a b => decide (a < b)⟩

instance : QMapKey String := ⟨fun a b => decide (a.data < b.data)⟩

/-- A `QMap<K, T>`: key/value entries kept in ascending key order, one entry per key. -/
structure QMap (κ : Type) (α : Type) where
  entries : List (κ × α)
deriving DecidableEq, Repr

namespace QMap

variable {κ α : Type}

/-- The empty map, `QMap()`. -/
def empty : QMap κ α := ⟨[]⟩

instance : Inhabited (QMap κ α) := ⟨empty⟩

/-- Number of entries, `QMap::size`. -/
def size (m : QMap κ α) : Nat := m.entries.length

/-- Keys in ascending order, `QMap::keys`. -/
def keys (m : QMap κ α) : List κ := m.entries.map Prod.fst

/-- The value stored under `k`, if any (`QMap::find`). -/
def find [DecidableEq κ] (m : QMap κ α) (k : κ) : Option α :=
  (m.entries.find? (fun e => decide (e.1 = k))).map Prod.snd

/-- Membership test, `QMap::contains`. -/
def contains [DecidableEq κ] (m : QMap κ α) (k : κ) : Bool := (m.find k).isSome

/-- Lookup with a default, `QMap::value(key, defaultValue)`. -/
def value [DecidableEq κ] (m : QMap κ α) (k : κ) (dflt : α) : α := (m.find k).getD dflt

/-- Ordered insertion into the entry list; an existing entry for `k` is replaced. -/
def insertEntry [DecidableEq κ] [QMapKey κ] (k : κ) (v : α) : List (κ × α) → List (κ × α)
  | [] => [(k, v)]
  | e :: es =>
    if QMapKey.lt k e.1 then (k, v) :: e :: es
    else if e.1 = k then (k, v) :: es
    else e :: insertEntry k v es

/-- The map after `QMap::insert(key, value)`: a value already stored under the key is overwritten. -/
def insert [DecidableEq κ] [QMapKey κ] (m : QMap κ α) (k : κ) (v : α) : QMap κ α :=
  ⟨insertEntry k v m.entries⟩

/-- The map after `QMap::remove(key)`. -/
def remove [DecidableEq κ] (m : QMap κ α) (k : κ) : QMap κ α :=
  ⟨m.entries.filter (fun e => !decide (e.1 = k))⟩

/-- Removes the key and returns its value, `QMap::take`; the default-constructed
value is returned when the key is absent. -/
def take [DecidableEq κ] [Inhabited α] (m : QMap κ α) (k : κ) : α × QMap κ α :=
  (m.value k default, m.remove k)

/-- The value `operator[]` refers to, and the map after the call: a key that is absent is
first inserted with a default-constructed value. -/
def index [DecidableEq κ] [QMapKey κ] [Inhabited α] (m : QMap κ α) (k : κ) : α × QMap κ α :=
  match m.find k with
  | some v => (v, m)
  | none => (default, m.insert k default)

/-- The map after `QMap::clear`. -/
def clear (_m : QMap κ α) : QMap κ α := empty

end QMap

/-- The list after `QList::takeAt(i)`, paired with the element taken out. -/
def takeAt {α : Type} (l : List α) (i : Nat) : Option (α × List α) :=
  match l.get? i with
  | some a => some (a, l.eraseIdx i)
  | none => none

/-! ## QTime -/

/-- Milliseconds in a day, Qt's `MSECS_PER_DAY`. -/
def MSECS_PER_DAY : Int := 86400000

/-- A `QTime`: a time of day held as milliseconds since midnight (`mds`), `-1` for the null time. -/
structure QTime where
  mds : Int
deriving DecidableEq, Repr

namespace QTime

/-- The default-constructed (null) time, `QTime()`. -/
def null : QTime := ⟨-1⟩

instance : Inhabited QTime := ⟨null⟩

/-- Validity test, `QTime::isValid`. -/
def isValid (t : QTime) : Bool := decide (-1 < t.mds) && decide (t.mds < MSECS_PER_DAY)

/-- The time `ms` milliseconds later, `QTime::addMSecs`; wraps when it passes midnight. -/
def addMSecs (t : QTime) (ms : Int) : QTime :=
  if t.isValid then ⟨(t.mds + ms) % MSECS_PER_DAY⟩ else null

/-- The time `s` seconds later, `QTime::addSecs`. -/
def addSecs (t : QTime) (s : Int) : QTime := t.addMSecs (s * 1000)

/-- Comparison of two times of day, `operator<` on `QTime`. -/
def lt (a b : QTime) : Bool := decide (a.mds < b.mds)

/-- The time of day shown by a wall clock that has run `clock` milliseconds
since some midnight: what `QTime::currentTime()` returns at that instant. -/
def currentTime (clock : Nat) : QTime := ⟨(clock : Int) % MSECS_PER_DAY⟩

end QTime

/-! ## Collaborators -/

/-- A `Buffer` as far as the manager looks at it: `getId()` and `getFilename()`. -/
structure Buffer where
  id : String
  filename : String
deriving DecidableEq, Repr

/-- Characters after the last `c` of a list, or `none` when `c` does not occur. -/
def afterLast (c : Char) : List Char → Option (List Char)
  | [] => none
  | x :: xs =>
    match afterLast c xs with
    | some r => some r
    | none => if x = c then some xs else none

/-- The file name's extension, `QFileInfo(path).suffix()`: what follows the last dot of the
last path component, empty when that component has no dot. -/
def suffix (path : String) : String :=
  let name := (afterLast '/' path.data).getD path.data
  String.mk ((afterLast '.' name).getD [])

/-- A call received by the status bar. -/
inductive StatusBarCall where
  | setMessage (msg : String)
  | setLspRunning (running : Bool)
deriving DecidableEq, Repr

/-- The status bar: its message, its LSP activity indicator, and the calls it received, oldest first. -/
structure StatusBar where
  message : String
  lspRunning : Bool
  calls : List StatusBarCall
deriving DecidableEq, Repr

namespace StatusBar

/-- Effect of `StatusBar::setLspRunning`. -/
def setLspRunning (s : StatusBar) (running : Bool) : StatusBar :=
  { s with lspRunning := running, calls := s.calls ++ [StatusBarCall.setLspRunning running] }

/-- Effect of `StatusBar::setMessage`. -/
def setMessage (s : StatusBar) (msg : String) : StatusBar :=
  { s with message := msg, calls := s.calls ++ [StatusBarCall.setMessage msg] }

end StatusBar

/-- The `Window` as far as the manager uses it: status bar, project settings
(`none` for a null `getProjectSettings()`), base directory. -/
structure Window where
  statusBar : StatusBar
  projectSettings : Option (QMap String String)
  baseDir : String
deriving DecidableEq, Repr

/-! ## Protocol clients -/

/-- A protocol client object (`LSP*`), identified by the address it was allocated at.
`generic` is `LSPGeneric(window, baseDir, language, command, args, extraEnv)`,
`clangd` is `LSPClangd(window, baseDir)`. -/
inductive LSP where
  | generic (addr : Nat) (baseDir language command : String) (args : List String)
      (extraEnv : List (String × String))
  | clangd (addr : Nat) (baseDir : String)
deriving DecidableEq, Repr

namespace LSP

/-- Address of the client object. -/
def addr : LSP → Nat
  | generic a _ _ _ _ _ => a
  | clangd a _ => a

/-- Modelled from the spec: `LSP::getLanguage` is defined in lsp/generic.cpp and lsp/clangd.cpp,
which are not under src/. A generic client's tag is the language it was constructed with; a clangd
client's tag is "cpp". -/
def getLanguage : LSP → String
  | generic _ _ language _ _ _ => language
  | clangd _ _ => "cpp"

end LSP

/-- A call made by the manager on a protocol client. -/
inductive LSPCall where
  | create (lsp : LSP)
  | start (lsp : LSP) (ok : Bool)
  | init (lsp : LSP) (bufferId : String)
  | openFile (lsp : LSP) (bufferId : String)
  | refreshFile (lsp : LSP) (bufferId : String)
  | destroy (lsp : LSP)
deriving DecidableEq, Repr

/-! ## Pending actions and diagnostics -/

/-- Modelled from the spec: the `LSP_ACTION_*` constants of lsp.h, which is not under src/. -/
inductive LSPActionKind where
  | LSP_ACTION_UNKNOWN
  | LSP_ACTION_DECLARATION
  | LSP_ACTION_DEFINITION
  | LSP_ACTION_SIGNATURE_HELP
  | LSP_ACTION_HOVER
  | LSP_ACTION_REFERENCES
  | LSP_ACTION_COMPLETION
deriving DecidableEq, Repr

export LSPActionKind (LSP_ACTION_UNKNOWN LSP_ACTION_DECLARATION LSP_ACTION_DEFINITION
  LSP_ACTION_SIGNATURE_HELP LSP_ACTION_HOVER LSP_ACTION_REFERENCES LSP_ACTION_COMPLETION)

/-- The `LSPAction` record (declared in lsp.h): the fields the manager assigns. -/
structure LSPAction where
  requestId : Int
  action : LSPActionKind
  buffer : Option Buffer
  creationTime : QTime
deriving DecidableEq, Repr

/-- A default-constructed action, `LSPAction action;`. -/
instance : Inhabited LSPAction := ⟨⟨0, LSP_ACTION_UNKNOWN, none, QTime.null⟩⟩

/-- The `LSPDiagnostic` record (declared in lsp.h): the line it is filed under and its text. -/
structure LSPDiagnostic where
  line : Int
  message : String
deriving DecidableEq, Repr

/-- The sweep timer, a `QTimer`. -/
structure QTimer where
  active : Bool
  interval : Nat
deriving DecidableEq, Repr

/-! ## The manager -/

/-- State of an `LSPManager`. `window` is `none` for a null pointer. `calls` (the calls made on
protocol clients, oldest first) and `nextAddr` (the address the next `new` returns) are ghost state. -/
structure LSPManager where
  window : Option Window
  lsps : List LSP
  lspsPerFile : QMap String LSP
  executedActions : QMap Int LSPAction
  diagnostics : QMap String (QMap Int (List LSPDiagnostic))
  cleanTimer : QTimer
  calls : List LSPCall
  nextAddr : Nat
deriving DecidableEq, Repr

namespace LSPManager

/-- The constructor `LSPManager::LSPManager(window)`. -/
def new (window : Option Window) : LSPManager :=
  { window := window, lsps := [], lspsPerFile := QMap.empty, executedActions := QMap.empty,
    diagnostics := QMap.empty, cleanTimer := ⟨true, 2000⟩, calls := [], nextAddr := 0 }

/-- The manager after `window->getStatusBar()->setLspRunning(running)` guarded by
`window != nullptr`. -/
def setLspRunningIfWindow (m : LSPManager) (running : Bool) : LSPManager :=
  match m.window with
  | some w => { m with window := some { w with statusBar := w.statusBar.setLspRunning running } }
  | none => m

/-- The test the sweep applies to a pending action when the wall clock shows `clock`:
`action.creationTime.addSecs(LSP_ACTION_TIMEOUT_S) < QTime::currentTime()`. -/
def expired (timeoutS : Int) (clock : Nat) (action : LSPAction) : Bool :=
  QTime.lt (action.creationTime.addSecs timeoutS) (QTime.currentTime clock)

/-- The sweep `LSPManager::timeoutActions`, run when the wall clock shows `clock` (one reading
serves the whole sweep); `timeoutS` is the constant `LSP_ACTION_TIMEOUT_S` of lsp.h, which is
not under src/. The timer is stopped and started again at the end. -/
def timeoutActions (timeoutS : Int) (m : LSPManager) (clock : Nat) : LSPManager :=
  let keys := m.executedActions.keys
  let toRemove := keys.filter (fun k => expired timeoutS clock (m.executedActions.value k default))
  let m1 := { m with executedActions := toRemove.foldl (fun ea k => ea.remove k) m.executedActions }
  let m2 := if m1.executedActions.size = 0 then m1.setLspRunningIfWindow false else m1
  { m2 with cleanTimer := ⟨true, 2000⟩ }

/-- The manager after `LSPManager::setExecutedAction(reqId, action, buffer)` called when the wall
clock shows `clock`. -/
def setExecutedAction (m : LSPManager) (clock : Nat) (reqId : Int) (action : LSPActionKind)
    (buffer : Option Buffer) : LSPManager :=
  let a : LSPAction :=
    { requestId := reqId, action := action, buffer := buffer,
      creationTime := QTime.currentTime clock }
  { m with executedActions := m.executedActions.insert reqId a }.setLspRunningIfWindow true

/-- Result and new state of `LSPManager::getExecutedAction(reqId)`; `none` when the call
dereferences a null `window`. -/
def getExecutedAction (m : LSPManager) (reqId : Int) : Option (LSPAction × LSPManager) :=
  if !m.executedActions.contains reqId then
    some ({ requestId := 0, action := LSP_ACTION_UNKNOWN, buffer := none,
            creationTime := QTime.null }, m)
  else
    let r := m.executedActions.take reqId
    let m1 := { m with executedActions := r.2 }
    if m1.executedActions.size = 0 then
      match m1.window with
      | some w =>
        some (r.1, { m1 with window := some { w with statusBar := w.statusBar.setLspRunning false } })
      | none => none
    else some (r.1, m1)

/-- The common tail of every branch of `start`: the client is allocated (`new`), its process is
launched (`lsp->start()`, succeeding iff `ok`); on failure the client is deleted and `nullptr`
returned, on success it is initialized with the buffer and appended to `lsps`. -/
def launch (m : LSPManager) (ok : Bool) (buffer : Buffer) (mk : Nat → LSP) :
    Option LSP × LSPManager :=
  let lsp := mk m.nextAddr
  let m1 := { m with nextAddr := m.nextAddr + 1,
                     calls := m.calls ++ [LSPCall.create lsp, LSPCall.start lsp ok] }
  if !ok then
    (none, { m1 with calls := m1.calls ++ [LSPCall.destroy lsp] })
  else
    (some lsp, { m1 with calls := m1.calls ++ [LSPCall.init lsp buffer.id],
                         lsps := m1.lsps ++ [lsp] })

/-- The environment overlay `start` builds for gopls. -/
def goExtraEnv (w : Window) : List (String × String) :=
  match w.projectSettings with
  | some s => if s.contains "goflags" then [("GOFLAGS", s.value "goflags" "")] else []
  | none => []

/-- Result and new state of `LSPManager::start(buffer, language)`, the server process starting
iff `ok`; `none` when the call dereferences a null `window`. -/
def start (m : LSPManager) (ok : Bool) (buffer : Buffer) (language : String) :
    Option (Option LSP × LSPManager) :=
  if language = "go" then
    match m.window with
    | some w => some (m.launch ok buffer
        (fun a => LSP.generic a w.baseDir "go" "gopls" [] (goExtraEnv w)))
    | none => none
  else if language = "cpp" ∨ language = "h" then
    match m.window with
    | some w => some (m.launch ok buffer (fun a => LSP.clangd a w.baseDir))
    | none => none
  else if language = "rb" ∨ language = "ruby" then
    match m.window with
    | some w => some (m.launch ok buffer
        (fun a => LSP.generic a w.baseDir "ruby" "solargraph" ["stdio"] []))
    | none => none
  else if language = "zig" then
    match m.window with
    | some w => some (m.launch ok buffer (fun a => LSP.generic a w.baseDir "zig" "zls" [] []))
    | none => none
  else some (none, m)

/-- Result of `LSPManager::forLanguage(language)`: the first running client with that tag. -/
def forLanguage (m : LSPManager) (language : String) : Option LSP :=
  let l := if language = "h" then "cpp" else language
  m.lsps.find? (fun lsp => decide (lsp.getLanguage = l))

/-- Result and new state of `LSPManager::manageBuffer(buffer)`, a server process launched by the
call starting iff `ok`; `none` when `Q_ASSERT(this->window != nullptr)` fails. -/
def manageBuffer (m : LSPManager) (ok : Bool) (buffer : Buffer) : Option (Bool × LSPManager) :=
  match m.window with
  | none => none
  | some _ =>
    let refresh := m.lspsPerFile.contains buffer.id
    let found : Option (Option LSP × LSPManager) :=
      match m.forLanguage (suffix buffer.filename) with
      | some lsp => some (some lsp, m)
      | none => m.start ok buffer (suffix buffer.filename)
    match found with
    | none => none
    | some (some lsp, m1) =>
      if refresh then
        some (true, { m1 with calls := m1.calls ++ [LSPCall.refreshFile lsp buffer.id] })
      else
        some (true, { m1 with lspsPerFile := m1.lspsPerFile.insert buffer.id lsp,
                              calls := m1.calls ++ [LSPCall.openFile lsp buffer.id] })
    | some (none, m1) => some (false, m1)

/-- The loop of `reload`, `for (int i = 0; i < lsps.size(); i++) delete lsps.takeAt(i);`, from
index `i` on: the clients left in the list and the clients deleted, in order. Every round
shortens the list, so `fuel` at least the length of the list never runs out. -/
def reloadLoop : Nat → Nat → List LSP → List LSP → List LSP × List LSP
  | 0, _, lsps, deleted => (lsps, deleted)
  | fuel + 1, i, lsps, deleted =>
    if i < lsps.length then
      match takeAt lsps i with
      | some (lsp, rest) => reloadLoop fuel (i + 1) rest (deleted ++ [lsp])
      | none => (lsps, deleted)
    else (lsps, deleted)

/-- New state of `LSPManager::reload(buffer)`, a server process launched by the call starting
iff `ok`; `none` when the assertion of `manageBuffer` fails. The timer, allocated by the
constructor and never null, is stopped. -/
def reload (m : LSPManager) (ok : Bool) (buffer : Buffer) : Option LSPManager :=
  let m1 := { m with cleanTimer := { m.cleanTimer with active := false } }
  let m2 := { m1 with lspsPerFile := m1.lspsPerFile.clear }
  let r := reloadLoop m2.lsps.length 0 m2.lsps []
  let m3 := { m2 with lsps := r.1, calls := m2.calls ++ r.2.map LSPCall.destroy }
  (m3.manageBuffer ok buffer).map Prod.snd

/-- Result of `LSPManager::getLSP(id)`; `none` is `nullptr`. -/
def getLSP (m : LSPManager) (id : String) : Option LSP :=
  if !m.lspsPerFile.contains id then none else m.lspsPerFile.find id

/-- The manager after `LSPManager::addDiagnostic(absFilepath, diag)`. `lists` and `list` are
references into the store, so the append is written back through them before the explicit
`insert` stores the same list once more. -/
def addDiagnostic (m : LSPManager) (absFilepath : String) (diag : LSPDiagnostic) : LSPManager :=
  let lists := m.diagnostics.index absFilepath
  let list := lists.1.index diag.line
  let appended := list.1 ++ [diag]
  let lists1 := list.2.insert diag.line appended
  let store := lists.2.insert absFilepath lists1
  let again := store.index absFilepath
  { m with diagnostics := again.2.insert absFilepath (again.1.insert diag.line appended) }

/-- Result and new state of `LSPManager::getDiagnostics(absFilepath)`: a copy of the entry
`operator[]` refers to, which is created empty when the path has none. -/
def getDiagnostics (m : LSPManager) (absFilepath : String) :
    QMap Int (List LSPDiagnostic) × LSPManager :=
  let lists := m.diagnostics.index absFilepath
  (lists.1, { m with diagnostics := lists.2 })

/-- The manager after `LSPManager::clearDiagnostics(absFilepath)`. -/
def clearDiagnostics (m : LSPManager) (absFilepath : String) : LSPManager :=
  let lists := m.diagnostics.index absFilepath
  let store := lists.2.insert absFilepath lists.1.clear
  { m with diagnostics := store.remove absFilepath }

/-- The manager after `addDiagnostic(absFilepath, d)` for each `d` of a list, in order. -/
def addDiagnostics (m : LSPManager) (absFilepath : String) (diags : List LSPDiagnostic) :
    LSPManager :=
  diags.foldl (fun acc d => acc.addDiagnostic absFilepath d) m

end LSPManager

/-! ## Sequences of calls -/

/-- A call on the pending-action set: `setExecutedAction`, `getExecutedAction` or the sweep. -/
inductive ActionCall where
  | set (clock : Nat) (reqId : Int) (action : LSPActionKind) (buffer : Option Buffer)
  | get (reqId : Int)
  | sweep (clock : Nat)
deriving DecidableEq, Repr

namespace ActionCall

/-- Whether the call names the request id `r`. -/
def touches (r : Int) : ActionCall → Bool
  | set _ reqId _ _ => decide (reqId = r)
  | get reqId => decide (reqId = r)
  | sweep _ => false

/-- Whether the call is a sweep. -/
def isSweep : ActionCall → Bool
  | sweep _ => true
  | _ => false

end ActionCall

/-- The manager after one call on the pending-action set. -/
def LSPManager.runActionCall (timeoutS : Int) (m : LSPManager) : ActionCall → Option LSPManager
  | ActionCall.set clock reqId action buffer => some (m.setExecutedAction clock reqId action buffer)
  | ActionCall.get reqId => (m.getExecutedAction reqId).map Prod.snd
  | ActionCall.sweep clock => some (m.timeoutActions timeoutS clock)

/-- The manager after a sequence of calls on the pending-action set, in order. -/
def LSPManager.runActionCalls (timeoutS : Int) (m : LSPManager) :
    List ActionCall → Option LSPManager
  | [] => some m
  | c :: cs =>
    match m.runActionCall timeoutS c with
    | some m1 => m1.runActionCalls timeoutS cs
    | none => none

/-- The sentinel `getExecutedAction` returns for an id that is not pending. -/
def unknownAction : LSPAction :=
  { requestId := 0, action := LSP_ACTION_UNKNOWN, buffer := none, creationTime := QTime.null }

/-! ## Sample values -/

/-- A window with an idle status bar and no project settings. -/
def sampleWindow : Window :=
  { statusBar := { message := "", lspRunning := false, calls := [] },
    projectSettings := none, baseDir := "/src" }

/-- A freshly constructed manager attached to `sampleWindow`. -/
def sampleManager : LSPManager := LSPManager.new (some sampleWindow)

/-- A buffer showing a Go file. -/
def sampleBuffer : Buffer := { id := "/src/main.go", filename := "/src/main.go" }

/-- A second buffer showing a Go file. -/
def sampleBuffer2 : Buffer := { id := "/src/util.go", filename := "/src/util.go" }

/-- A buffer showing a C++ file. -/
def sampleCppBuffer : Buffer := { id := "/src/main.cpp", filename := "/src/main.cpp" }

/-- A buffer showing a Ruby file with the extension rb. -/
def sampleRbBuffer : Buffer := { id := "/src/app.rb", filename := "/src/app.rb" }

/-- A second buffer showing a Ruby file with the extension rb. -/
def sampleRbBuffer2 : Buffer := { id := "/src/lib.rb", filename := "/src/lib.rb" }

/-- Whether a call on a client is `openFile` of the buffer with the given id. -/
def LSPCall.isOpenFile (bufferId : String) : LSPCall → Bool
  | LSPCall.openFile _ id => decide (id = bufferId)
  | _ => false

/-- Whether a call on a client launches a server process (`lsp->start()`). -/
def LSPCall.isStart : LSPCall → Bool
  | LSPCall.start _ _ => true
  | _ => false

/-- The fresh manager after `manageBuffer(sampleBuffer)`, the gopls process starting. -/
def sampleManaged : LSPManager :=
  ((sampleManager.manageBuffer true sampleBuffer).map Prod.snd).getD sampleManager

/-- The manager `sampleManaged` after a further `manageBuffer(sampleCppBuffer)`, the clangd
process starting. -/
def sampleTwoClients : LSPManager :=
  ((sampleManaged.manageBuffer true sampleCppBuffer).map Prod.snd).getD sampleManaged

/-- The fresh manager after `manageBuffer(sampleRbBuffer)`, the solargraph process starting. -/
def sampleRbManaged : LSPManager :=
  ((sampleManager.manageBuffer true sampleRbBuffer).map Prod.snd).getD sampleManager

/-- A diagnostic on line 3. -/
def sampleDiagnostic : LSPDiagnostic := { line := 3, message := "unused variable" }

/-- A second diagnostic on line 3. -/
def sampleDiagnostic2 : LSPDiagnostic := { line := 3, message := "missing return" }

/-- Whether a call on a client is `openFile` or `refreshFile`. -/
def LSPCall.isFileCall : LSPCall → Bool
  | LSPCall.openFile _ _ => true
  | LSPCall.refreshFile _ _ => true
  | _ => false

/-- The manager `reload` hands to `manageBuffer`: timer stopped, buffer-to-client map cleared,
deletion loop run. -/
def LSPManager.reloadPrepared (m : LSPManager) : LSPManager :=
  { m with
    cleanTimer := { m.cleanTimer with active := false }
    lspsPerFile := m.lspsPerFile.clear
    lsps := (LSPManager.reloadLoop m.lsps.length 0 m.lsps []).1
    calls := m.calls ++ (LSPManager.reloadLoop m.lsps.length 0 m.lsps []).2.map LSPCall.destroy }

/-- The language tags `start` has a branch for. -/
def supportedLanguages : List String := ["go", "cpp", "h", "rb", "ruby", "zig"]

/-- The tags of the clients `start` constructs. -/
def startedTags : List String := ["go", "cpp", "ruby", "zig"]

/-- The tag `forLanguage` searches for: the requested one, "h" read as "cpp". -/
def lookupTag (language : String) : String := if language = "h" then "cpp" else language

/-! ## Sequences of calls on the whole manager -/

/-- A call on the manager that touches the pending set or reloads. -/
inductive ManagerCall where
  | set (clock : Nat) (reqId : Int) (action : LSPActionKind) (buffer : Option Buffer)
  | get (reqId : Int)
  | sweep (clock : Nat)
  | reload (ok : Bool) (buffer : Buffer)
deriving DecidableEq, Repr

/-- The manager after one such call. -/
def LSPManager.runManagerCall (timeoutS : Int) (m : LSPManager) : ManagerCall → Option LSPManager
  | ManagerCall.set clock reqId action buffer =>
    some (m.setExecutedAction clock reqId action buffer)
  | ManagerCall.get reqId => (m.getExecutedAction reqId).map Prod.snd
  | ManagerCall.sweep clock => some (m.timeoutActions timeoutS clock)
  | ManagerCall.reload ok buffer => m.reload ok buffer

/-- The manager after a sequence of such calls, in order. -/
def LSPManager.runManagerCalls (timeoutS : Int) (m : LSPManager) :
    List ManagerCall → Option LSPManager
  | [] => some m
  | c :: cs =>
    match m.runManagerCall timeoutS c with
    | some m1 => m1.runManagerCalls timeoutS cs
    | none => none

/-- A call that attaches a buffer: `manageBuffer` or `reload`, with the outcome of a process
launch the call may make. -/
inductive BufferCall where
  | manageBuffer (ok : Bool) (buffer : Buffer)
  | reload (ok : Bool) (buffer : Buffer)
deriving DecidableEq, Repr

/-- The manager after one such call. -/
def LSPManager.runBufferCall (m : LSPManager) : BufferCall → Option LSPManager
  | BufferCall.manageBuffer ok buffer => (m.manageBuffer ok buffer).map Prod.snd
  | BufferCall.reload ok buffer => m.reload ok buffer

/-- The manager after a sequence of such calls, in order. -/
def LSPManager.runBufferCalls (m : LSPManager) : List BufferCall → Option LSPManager
  | [] => some m
  | c :: cs =>
    match m.runBufferCall c with
    | some m1 => m1.runBufferCalls cs
    | none => none

/-- What the event loop does when the period of `cleanTimer` elapses: the `timeout` signal,
connected to `timeoutActions` by the constructor, is emitted only while the timer is active. -/
def LSPManager.timerTick (timeoutS : Int) (m : LSPManager) (clock : Nat) : LSPManager :=
  if m.cleanTimer.active then m.timeoutActions timeoutS clock else m

/-- A window whose project settings set the key goflags. -/
def sampleGoWindow : Window :=
  { statusBar := { message := "", lspRunning := false, calls := [] },
    projectSettings := some ((QMap.empty : QMap String String).insert "goflags" "-tags=e2e"),
    baseDir := "/src" }

/-! ## The LSP commands of the command line -/

/-- The value a C `int` holds when given `n`: `n` modulo 2^32, read as two's complement. -/
def toInt32 (n : Int) : Int := (n + 2147483648) % 4294967296 - 2147483648

/-- The request id `Command::execute` draws, `int reqId = QRandomGenerator::global()->generate();
if (reqId < 0) { reqId *= -1; }`, from the 32-bit value `random` the generator returns; the
multiplication wraps modulo 2^32. -/
def requestId (random : Nat) : Int :=
  let reqId := toInt32 (random : Int)
  if reqId < 0 then toInt32 (reqId * -1) else reqId

/-- The request operations of a protocol client. -/
inductive LSPMethod where
  | definition
  | declaration
  | signatureHelp
  | hover
  | references
  | completion
deriving DecidableEq, Repr

/-- A request call made on a client: `lsp->method(reqId, filename, line, column)`. -/
structure LSPRequest where
  lsp : LSP
  method : LSPMethod
  reqId : Int
  filename : String
  line : Int
  column : Int
deriving DecidableEq, Repr

/-- The current editor as far as the LSP commands look at it. -/
structure Editor where
  id : String
  buffer : Buffer
  currentLineNumber : Int
  currentColumn : Int
deriving DecidableEq, Repr

/-- A call on the window that shows diagnostics: `showLSPDiagnostics(id)` or
`showLSPDiagnosticsOfLine(id, line)`. -/
inductive DiagnosticsView where
  | all (editorId : String)
  | ofLine (editorId : String) (line : Int)
deriving DecidableEq, Repr

/-- What the LSP section of `Command::execute` reads and writes: the manager of the window
(whose window is the command's), the current editor, the requests sent to clients and the
diagnostics views opened, oldest first. -/
structure CommandState where
  manager : LSPManager
  editor : Editor
  requests : List LSPRequest
  shown : List DiagnosticsView
deriving DecidableEq, Repr

namespace Command

/-- The manager after a call on the status bar of the window. -/
def onStatusBar (m : LSPManager) (f : StatusBar → StatusBar) : LSPManager :=
  match m.window with
  | some w => { m with window := some { w with statusBar := f w.statusBar } }
  | none => m

/-- One of the six request blocks of `Command::execute`:
`if (command == name) { if (lsp == nullptr) { setMessage(...); return; }
lsp->method(reqId, ...); setExecutedAction(reqId, action, currentBuffer); }`.
The flag tells whether `execute` has returned. -/
def requestBlock (names : List String) (method : LSPMethod) (action : LSPActionKind)
    (command : String) (lsp : Option LSP) (reqId : Int) (clock : Nat)
    (st : CommandState × Bool) : CommandState × Bool :=
  if st.2 then st
  else if command ∈ names then
    match lsp with
    | none =>
      ({ st.1 with manager :=
          onStatusBar st.1.manager (fun s => s.setMessage "No LSP server running.") }, true)
    | some client =>
      ({ st.1 with
          requests := st.1.requests ++
            [{ lsp := client, method := method, reqId := reqId,
               filename := st.1.editor.buffer.filename,
               line := st.1.editor.currentLineNumber, column := st.1.editor.currentColumn }]
          manager := st.1.manager.setExecutedAction clock reqId action
            (some st.1.editor.buffer) }, false)
  else st

/-- The block of `Command::execute` for the commands that start with `:err`. -/
def errBlock (command : String) (lsp : Option LSP) (st : CommandState × Bool) :
    CommandState × Bool :=
  if st.2 then st
  else if (":err".data).isPrefixOf command.data then
    match lsp with
    | none =>
      ({ st.1 with manager :=
          onStatusBar st.1.manager (fun s => s.setMessage "No LSP server running.") }, true)
    | some _ =>
      if command = ":errlist" ∨ command = ":errl" then
        ({ st.1 with shown := st.1.shown ++ [DiagnosticsView.all st.1.editor.id] }, true)
      else if command = ":err" then
        ({ st.1 with shown := st.1.shown ++
            [DiagnosticsView.ofLine st.1.editor.id st.1.editor.currentLineNumber] }, true)
      else (st.1, true)
  else st

/-- The block of `Command::execute` for `:rlsp` and `:reloadlsp`: the manager is reloaded for
the current buffer, then the indicator is switched off. -/
def rlspBlock (command : String) (ok : Bool) (st : CommandState × Bool) :
    Option (CommandState × Bool) :=
  if st.2 then some st
  else if command = ":rlsp" ∨ command = ":reloadlsp" then
    match st.1.manager.reload ok st.1.editor.buffer with
    | some m1 =>
      some ({ st.1 with manager := onStatusBar m1 (fun s => s.setLspRunning false) }, false)
    | none => none
  else some st

/-- The LSP section of `Command::execute` (from `Buffer* currentBuffer = ...` to the `:rlsp`
block), which a command reaches when no earlier section has handled it; no later section
matches the request commands. `random` is what the generator returns, `clock` what the wall
clock shows, `ok` whether a process launched by a reload starts. The command's window is the
window of the manager; without one there is no result. -/
def executeLsp (s : CommandState) (command : String) (random : Nat) (clock : Nat) (ok : Bool) :
    Option CommandState :=
  match s.manager.window with
  | none => none
  | some _ =>
    let lsp := s.manager.getLSP s.editor.buffer.id
    let reqId := requestId random
    let st1 := requestBlock [":def"] LSPMethod.definition LSP_ACTION_DEFINITION
      command lsp reqId clock (s, false)
    let st2 := requestBlock [":dec"] LSPMethod.declaration LSP_ACTION_DECLARATION
      command lsp reqId clock st1
    let st3 := requestBlock [":sig"] LSPMethod.signatureHelp LSP_ACTION_SIGNATURE_HELP
      command lsp reqId clock st2
    let st4 := requestBlock [":i", ":info"] LSPMethod.hover LSP_ACTION_HOVER
      command lsp reqId clock st3
    let st5 := requestBlock [":ref"] LSPMethod.references LSP_ACTION_REFERENCES
      command lsp reqId clock st4
    let st6 := requestBlock [":com"] LSPMethod.completion LSP_ACTION_COMPLETION
      command lsp reqId clock st5
    (rlspBlock command ok (errBlock command lsp st6)).map Prod.fst

/-- The request commands with the request each one issues and the action kind it records. -/
def requestCommands : List (String × LSPMethod × LSPActionKind) :=
  [(":def", LSPMethod.definition, LSP_ACTION_DEFINITION),
   (":dec", LSPMethod.declaration, LSP_ACTION_DECLARATION),
   (":sig", LSPMethod.signatureHelp, LSP_ACTION_SIGNATURE_HELP),
   (":i", LSPMethod.hover, LSP_ACTION_HOVER),
   (":info", LSPMethod.hover, LSP_ACTION_HOVER),
   (":ref", LSPMethod.references, LSP_ACTION_REFERENCES),
   (":com", LSPMethod.completion, LSP_ACTION_COMPLETION)]

end Command

/-- The command line in front of `sampleManaged`, the cursor in the Go buffer. -/
def sampleCommandState : CommandState :=
  { manager := sampleManaged,
    editor := { id := "/src/main.go", buffer := sampleBuffer,
                currentLineNumber := 10, currentColumn := 4 },
    requests := [], shown := [] }

/-! ## Facts about `QMap` -/

namespace QMap

variable {κ α : Type} [DecidableEq κ] [QMapKey κ]

theorem find?_insertEntry (k k1 : κ) (v : α) (es : List (κ × α)) :
    (insertEntry k v es).find? (fun e => decide (e.1 = k1)) =
      if k = k1 then some (k, v) else es.find? (fun e => decide (e.1 = k1)) := by
  induction es with
  | nil => by_cases h : k = k1 <;> simp [insertEntry, h]
  | cons e es ih =>
    by_cases h : k = k1
    · subst h
      simp only [insertEntry]
      split_ifs with h1 h2
      · simp
      · simp
      · rw [List.find?_cons_of_neg _ (by simpa using h2), ih]; simp
    · simp only [insertEntry]
      split_ifs with h1 h2
      · rw [List.find?_cons_of_neg _ (by simpa using h)]
      · subst h2
        rw [List.find?_cons_of_neg _ (by simpa using h),
          List.find?_cons_of_neg _ (by simpa using h)]
      · by_cases h3 : e.1 = k1
        · rw [List.find?_cons_of_pos _ (by simpa using h3),
            List.find?_cons_of_pos _ (by simpa using h3)]
        · rw [List.find?_cons_of_neg _ (by simpa using h3),
            List.find?_cons_of_neg _ (by simpa using h3), ih, if_neg h]

theorem find_insert_self (m : QMap κ α) (k : κ) (v : α) : (m.insert k v).find k = some v := by
  simp [find, insert, find?_insertEntry]

theorem find_insert_of_ne (m : QMap κ α) {k k1 : κ} (v : α) (h : k ≠ k1) :
    (m.insert k v).find k1 = m.find k1 := by
  simp [find, insert, find?_insertEntry, h]

omit [QMapKey κ] in
theorem find_remove_self (m : QMap κ α) (k : κ) : (m.remove k).find k = none := by
  simp [find, remove, List.find?_eq_none]

omit [QMapKey κ] in
theorem find_remove_of_ne (m : QMap κ α) {k k1 : κ} (h : k ≠ k1) :
    (m.remove k).find k1 = m.find k1 := by
  obtain ⟨es⟩ := m
  simp only [find, remove]
  congr 1
  induction es with
  | nil => rfl
  | cons e es ih =>
    by_cases h1 : e.1 = k
    · have h2 : ¬ e.1 = k1 := fun h3 => h (h1.symm.trans h3)
      rw [List.filter_cons_of_neg (by simpa using h1),
        List.find?_cons_of_neg _ (by simpa using h2), ih]
    · rw [List.filter_cons_of_pos (by simpa using h1)]
      by_cases h2 : e.1 = k1
      · rw [List.find?_cons_of_pos _ (by simpa using h2),
          List.find?_cons_of_pos _ (by simpa using h2)]
      · rw [List.find?_cons_of_neg _ (by simpa using h2),
          List.find?_cons_of_neg _ (by simpa using h2), ih]

omit [QMapKey κ] in
theorem find_foldl_remove (ks : List κ) (m : QMap κ α) (k : κ) :
    (ks.foldl (fun ea x => ea.remove x) m).find k = if k ∈ ks then none else m.find k := by
  induction ks generalizing m with
  | nil => simp
  | cons x xs ih =>
    rw [List.foldl_cons, ih]
    by_cases h : k ∈ xs
    · simp [h]
    · by_cases hx : x = k
      · subst hx; simp [h, find_remove_self]
      · have hx1 : ¬ k = x := fun h1 => hx h1.symm
        simp [h, hx1, find_remove_of_ne _ hx]

omit [DecidableEq κ] [QMapKey κ] in
theorem size_eq_zero_iff (m : QMap κ α) : m.size = 0 ↔ m = empty := by
  obtain ⟨es⟩ := m
  simp [size, empty]

end QMap

/-! ## Facts about the pending-action operations -/

namespace LSPManager

theorem executedActions_setLspRunningIfWindow (m : LSPManager) (b : Bool) :
    (m.setLspRunningIfWindow b).executedActions = m.executedActions := by
  unfold setLspRunningIfWindow
  split <;> rfl

theorem window_isSome_setLspRunningIfWindow (m : LSPManager) (b : Bool) :
    (m.setLspRunningIfWindow b).window.isSome = m.window.isSome := by
  unfold setLspRunningIfWindow
  split <;> simp_all

theorem executedActions_setExecutedAction (m : LSPManager) (clock : Nat) (reqId : Int)
    (action : LSPActionKind) (buffer : Option Buffer) :
    (m.setExecutedAction clock reqId action buffer).executedActions =
      m.executedActions.insert reqId
        { requestId := reqId, action := action, buffer := buffer,
          creationTime := QTime.currentTime clock } := by
  simp [setExecutedAction, executedActions_setLspRunningIfWindow]

theorem window_isSome_setExecutedAction (m : LSPManager) (clock : Nat) (reqId : Int)
    (action : LSPActionKind) (buffer : Option Buffer) :
    (m.setExecutedAction clock reqId action buffer).window.isSome = m.window.isSome := by
  simp [setExecutedAction, window_isSome_setLspRunningIfWindow]

theorem executedActions_timeoutActions (timeoutS : Int) (m : LSPManager) (clock : Nat) :
    (m.timeoutActions timeoutS clock).executedActions =
      ((m.executedActions.keys.filter
        (fun k => expired timeoutS clock (m.executedActions.value k default))).foldl
        (fun ea k => ea.remove k) m.executedActions) := by
  simp only [timeoutActions]
  split <;> simp [executedActions_setLspRunningIfWindow]

theorem window_isSome_timeoutActions (timeoutS : Int) (m : LSPManager) (clock : Nat) :
    (m.timeoutActions timeoutS clock).window.isSome = m.window.isSome := by
  simp only [timeoutActions]
  split <;> simp [window_isSome_setLspRunningIfWindow]

/-- A sweep leaves an entry as it is or removes it; it removes it exactly when the entry's key
passes the expiry test. -/
theorem find_timeoutActions (timeoutS : Int) (m : LSPManager) (clock : Nat) (k : Int) :
    (m.timeoutActions timeoutS clock).executedActions.find k =
      if expired timeoutS clock (m.executedActions.value k default) = true then none
      else m.executedActions.find k := by
  rw [executedActions_timeoutActions, QMap.find_foldl_remove]
  by_cases hk : m.executedActions.find k = none
  · simp [hk]
  · have hmem : k ∈ m.executedActions.keys := by
      show k ∈ m.executedActions.entries.map Prod.fst
      cases hf : m.executedActions.entries.find? (fun e => decide (e.1 = k)) with
      | none => exact absurd (by simp [QMap.find, hf]) hk
      | some e =>
        have h2 := List.find?_some hf
        have h3 := List.mem_of_find?_eq_some hf
        simp only [decide_eq_true_eq] at h2
        exact List.mem_map.mpr ⟨e, h3, h2⟩
    simp [List.mem_filter, hmem]

/-- Taking a pending action out: the recorded action is returned and its id is pending no more. -/
theorem getExecutedAction_of_find (m : LSPManager) (reqId : Int) (a : LSPAction)
    (hw : m.window.isSome = true) (h : m.executedActions.find reqId = some a) :
    ∃ m2, m.getExecutedAction reqId = some (a, m2) ∧
      m2.executedActions = m.executedActions.remove reqId ∧ m2.window.isSome = true := by
  obtain ⟨w, hw1⟩ := Option.isSome_iff_exists.mp hw
  simp only [getExecutedAction, QMap.contains, h, Option.isSome_some, Bool.not_true,
    Bool.false_eq_true, if_false, QMap.take, QMap.value, Option.getD_some, hw1]
  split
  · exact ⟨_, rfl, rfl, rfl⟩
  · exact ⟨_, rfl, rfl, by simp [hw1]⟩

/-- Asking for an id that is not pending: the sentinel is returned and nothing changes. -/
theorem getExecutedAction_of_not_contains (m : LSPManager) (reqId : Int)
    (h : m.executedActions.contains reqId = false) :
    m.getExecutedAction reqId = some (unknownAction, m) := by
  simp [getExecutedAction, h, unknownAction]

/-- A `getExecutedAction` for another id succeeds and leaves the entry of `reqId` alone. -/
theorem getExecutedAction_other (m : LSPManager) (r reqId : Int) (hne : r ≠ reqId)
    (hw : m.window.isSome = true) :
    ∃ x m2, m.getExecutedAction r = some (x, m2) ∧
      m2.executedActions.find reqId = m.executedActions.find reqId ∧
      m2.window.isSome = true := by
  cases hf : m.executedActions.find r with
  | none =>
    exact ⟨_, _, getExecutedAction_of_not_contains m r (by simp [QMap.contains, hf]), rfl, hw⟩
  | some a =>
    obtain ⟨m2, h1, h2, h3⟩ := getExecutedAction_of_find m r a hw hf
    exact ⟨a, m2, h1, by rw [h2, QMap.find_remove_of_ne _ hne], h3⟩

/-- One call that does not name `reqId` succeeds and leaves the entry of `reqId` alone, unless
it is a sweep that removes it. -/
theorem runActionCall_other (timeoutS : Int) (m : LSPManager) (reqId : Int) (c : ActionCall)
    (hw : m.window.isSome = true) (hc : c.touches reqId = false) :
    ∃ m1, m.runActionCall timeoutS c = some m1 ∧ m1.window.isSome = true ∧
      (m1.executedActions.find reqId = m.executedActions.find reqId ∨
        (c.isSweep = true ∧ m1.executedActions.find reqId = none)) := by
  cases c with
  | set clock r action buffer =>
    have hne : r ≠ reqId := by simpa [ActionCall.touches] using hc
    refine ⟨_, rfl, by rw [window_isSome_setExecutedAction]; exact hw, Or.inl ?_⟩
    rw [executedActions_setExecutedAction, QMap.find_insert_of_ne _ _ hne]
  | get r =>
    have hne : r ≠ reqId := by simpa [ActionCall.touches] using hc
    obtain ⟨x, m2, h1, h2, h3⟩ := getExecutedAction_other m r reqId hne hw
    exact ⟨m2, by simp [runActionCall, h1], h3, Or.inl h2⟩
  | sweep clock =>
    refine ⟨_, rfl, by rw [window_isSome_timeoutActions]; exact hw, ?_⟩
    rw [find_timeoutActions]
    split
    · exact Or.inr ⟨rfl, rfl⟩
    · exact Or.inl rfl

/-- A sequence of calls none of which names `reqId` succeeds and leaves the entry of `reqId`
alone, unless one of its sweeps removes it. -/
theorem runActionCalls_other (timeoutS : Int) (reqId : Int) (calls : List ActionCall)
    (m : LSPManager) (hw : m.window.isSome = true)
    (hc : ∀ c ∈ calls, c.touches reqId = false) :
    ∃ m1, m.runActionCalls timeoutS calls = some m1 ∧ m1.window.isSome = true ∧
      (m1.executedActions.find reqId = m.executedActions.find reqId ∨
        ((∃ c ∈ calls, c.isSweep = true) ∧ m1.executedActions.find reqId = none)) := by
  induction calls generalizing m with
  | nil => exact ⟨m, rfl, hw, Or.inl rfl⟩
  | cons c cs ih =>
    obtain ⟨m1, h1, hw1, h2⟩ :=
      runActionCall_other timeoutS m reqId c hw (hc c (List.mem_cons_self c cs))
    obtain ⟨m2, h3, hw2, h4⟩ := ih m1 hw1 (fun d hd => hc d (List.mem_cons_of_mem c hd))
    refine ⟨m2, by simp [runActionCalls, h1, h3], hw2, ?_⟩
    rcases h4 with h4 | ⟨⟨d, hd, hs⟩, h4⟩
    · rcases h2 with h2 | ⟨hs, h2⟩
      · exact Or.inl (h4.trans h2)
      · exact Or.inr ⟨⟨c, List.mem_cons_self c cs, hs⟩, h4.trans h2⟩
    · exact Or.inr ⟨⟨d, List.mem_cons_of_mem c hd, hs⟩, h4⟩

/-! ## Recording and consuming a pending action -/

/-- C1: after `setExecutedAction(reqId, action, buffer)` on a manager that has a window, and after
any sequence of sets and gets on other ids and of sweeps, the sequence completes; the id is still
pending when no sweep ran in between; and whenever it is still pending (no sweep evicted it),
`getExecutedAction(reqId)` returns the recorded request id, kind and buffer and removes the id, so
that a second `getExecutedAction(reqId)` returns the unknown sentinel and changes nothing. -/
theorem setExecutedAction_then_getExecutedAction (timeoutS : Int) (m : LSPManager)
    (hw : m.window.isSome = true) (clock : Nat) (reqId : Int) (action : LSPActionKind)
    (buffer : Option Buffer) (calls : List ActionCall)
    (hother : ∀ c ∈ calls, c.touches reqId = false) :
    ∃ m1, (m.setExecutedAction clock reqId action buffer).runActionCalls timeoutS calls = some m1 ∧
      ((∀ c ∈ calls, c.isSweep = false) → m1.executedActions.contains reqId = true) ∧
      (m1.executedActions.contains reqId = true →
        ∃ a m2, m1.getExecutedAction reqId = some (a, m2) ∧
          a.requestId = reqId ∧ a.action = action ∧ a.buffer = buffer ∧
          m2.executedActions.contains reqId = false ∧
          m2.getExecutedAction reqId = some (unknownAction, m2) ∧
          unknownAction.action = LSP_ACTION_UNKNOWN ∧ unknownAction.buffer = none) := by
  have hw0 : (m.setExecutedAction clock reqId action buffer).window.isSome = true := by
    rw [window_isSome_setExecutedAction]; exact hw
  have hrec : (m.setExecutedAction clock reqId action buffer).executedActions.find reqId =
      some { requestId := reqId, action := action, buffer := buffer,
             creationTime := QTime.currentTime clock } := by
    rw [executedActions_setExecutedAction, QMap.find_insert_self]
  obtain ⟨m1, h1, hw1, h2⟩ := runActionCalls_other timeoutS reqId calls _ hw0 hother
  refine ⟨m1, h1, ?_, ?_⟩
  · intro hns
    rcases h2 with h2 | ⟨⟨c, hc, hs⟩, _⟩
    · simp [QMap.contains, h2, hrec]
    · rw [hns c hc] at hs; exact absurd hs (by decide)
  · intro hp
    have hf : m1.executedActions.find reqId =
        some { requestId := reqId, action := action, buffer := buffer,
               creationTime := QTime.currentTime clock } := by
      rcases h2 with h2 | ⟨_, h2⟩
      · exact h2.trans hrec
      · simp [QMap.contains, h2] at hp
    obtain ⟨m2, h3, h4, _⟩ := getExecutedAction_of_find m1 reqId _ hw1 hf
    have h5 : m2.executedActions.contains reqId = false := by
      simp [QMap.contains, h4, QMap.find_remove_self]
    exact ⟨_, m2, h3, rfl, rfl, rfl, h5, getExecutedAction_of_not_contains m2 reqId h5, rfl, rfl⟩

/-- C1 at a sample input: definition request 42 recorded, then other traffic, then read twice. -/
theorem setExecutedAction_then_getExecutedAction_witness :
    ∃ m1, (sampleManager.setExecutedAction 1000 42 LSP_ACTION_DEFINITION
        (some sampleBuffer)).runActionCalls 5
        [ActionCall.set 1500 43 LSP_ACTION_HOVER (some sampleBuffer), ActionCall.get 43,
          ActionCall.get 7] = some m1 ∧
      ((∀ c ∈ [ActionCall.set 1500 43 LSP_ACTION_HOVER (some sampleBuffer), ActionCall.get 43,
          ActionCall.get 7], c.isSweep = false) → m1.executedActions.contains 42 = true) ∧
      (m1.executedActions.contains 42 = true →
        ∃ a m2, m1.getExecutedAction 42 = some (a, m2) ∧
          a.requestId = 42 ∧ a.action = LSP_ACTION_DEFINITION ∧ a.buffer = some sampleBuffer ∧
          m2.executedActions.contains 42 = false ∧
          m2.getExecutedAction 42 = some (unknownAction, m2) ∧
          unknownAction.action = LSP_ACTION_UNKNOWN ∧ unknownAction.buffer = none) :=
  setExecutedAction_then_getExecutedAction 5 sampleManager (by decide) 1000 42
    LSP_ACTION_DEFINITION (some sampleBuffer) _ (by decide)

/-- C2: for a request id that is not pending, `getExecutedAction` returns the unknown sentinel
(kind Unknown, no buffer, request id 0) and the manager, with its pending set and its window's
activity indicator, is exactly what it was before the call. -/
theorem getExecutedAction_not_pending (m : LSPManager) (reqId : Int)
    (h : m.executedActions.contains reqId = false) :
    ∃ a, m.getExecutedAction reqId = some (a, m) ∧
      a.action = LSP_ACTION_UNKNOWN ∧ a.buffer = none ∧ a.requestId = 0 :=
  ⟨unknownAction, getExecutedAction_of_not_contains m reqId h, rfl, rfl, rfl⟩

/-- C2 at a sample input: id 42 is pending, id 9 is asked for. -/
theorem getExecutedAction_not_pending_witness :
    (sampleManager.setExecutedAction 1000 42 LSP_ACTION_HOVER none).executedActions.contains 9
        = false ∧
      ∃ a, (sampleManager.setExecutedAction 1000 42 LSP_ACTION_HOVER none).getExecutedAction 9 =
          some (a, sampleManager.setExecutedAction 1000 42 LSP_ACTION_HOVER none) ∧
        a.action = LSP_ACTION_UNKNOWN ∧ a.buffer = none ∧ a.requestId = 0 :=
  ⟨by decide, getExecutedAction_not_pending _ 9 (by decide)⟩

/-! ## The sweep -/

/-- The action `setExecutedAction` files under `reqId`. -/
theorem find_setExecutedAction (m : LSPManager) (clock : Nat) (reqId : Int)
    (action : LSPActionKind) (buffer : Option Buffer) :
    (m.setExecutedAction clock reqId action buffer).executedActions.find reqId =
      some { requestId := reqId, action := action, buffer := buffer,
             creationTime := QTime.currentTime clock } := by
  rw [executedActions_setExecutedAction, QMap.find_insert_self]

/-- The expiry test on an action with a valid creation time, as arithmetic on milliseconds. -/
theorem expired_eq (timeoutS : Int) (clock : Nat) (a : LSPAction)
    (h0 : -1 < a.creationTime.mds) (h1 : a.creationTime.mds < MSECS_PER_DAY) :
    expired timeoutS clock a =
      decide ((a.creationTime.mds + timeoutS * 1000) % MSECS_PER_DAY
        < (clock : Int) % MSECS_PER_DAY) := by
  simp [expired, QTime.lt, QTime.addSecs, QTime.addMSecs, QTime.isValid, QTime.currentTime,
    h0, h1]

/-- C3: an action recorded `T` seconds and one millisecond before midnight (any timeout `T` from
1 s to 86399 s) is left pending by a sweep run at midnight or any time `later` after it, although
it is then older than the timeout: its deadline `creationTime.addSecs(T)` is 23:59:59.999, the
largest time of day, and no `QTime::currentTime()` compares above it. -/
theorem timeoutActions_keeps_expired_across_midnight (T : Nat) (hT1 : 1 ≤ T) (hT2 : T < 86400)
    (m : LSPManager) (reqId : Int) (action : LSPActionKind) (buffer : Option Buffer)
    (later : Nat) :
    T * 1000 < (86400000 + later) - (86400000 - (T * 1000 + 1)) ∧
      ((m.setExecutedAction (86400000 - (T * 1000 + 1)) reqId action buffer).timeoutActions
        (T : Int) (86400000 + later)).executedActions.find reqId =
        some { requestId := reqId, action := action, buffer := buffer,
               creationTime := QTime.currentTime (86400000 - (T * 1000 + 1)) } := by
  refine ⟨by omega, ?_⟩
  rw [find_timeoutActions, find_setExecutedAction]
  have hval : (m.setExecutedAction (86400000 - (T * 1000 + 1)) reqId action
      buffer).executedActions.value reqId default =
      { requestId := reqId, action := action, buffer := buffer,
        creationTime := QTime.currentTime (86400000 - (T * 1000 + 1)) } := by
    simp [QMap.value, find_setExecutedAction]
  rw [hval]
  have hexp : expired (T : Int) (86400000 + later)
      { requestId := reqId, action := action, buffer := buffer,
        creationTime := QTime.currentTime (86400000 - (T * 1000 + 1)) } = false := by
    rw [expired_eq _ _ _ (by simp only [QTime.currentTime, MSECS_PER_DAY]; omega)
      (by simp only [QTime.currentTime, MSECS_PER_DAY]; omega)]
    simp only [QTime.currentTime, MSECS_PER_DAY, decide_eq_false_iff_not]
    omega
  rw [hexp]
  simp

/-- C3 at the timeout of 5 s: recorded at 23:59:54.999, swept at 00:00:02.000, still pending. -/
theorem timeoutActions_keeps_expired_across_midnight_witness :
    5 * 1000 < (86400000 + 2000) - (86400000 - (5 * 1000 + 1)) ∧
      ((sampleManager.setExecutedAction (86400000 - (5 * 1000 + 1)) 42 LSP_ACTION_HOVER
        (some sampleBuffer)).timeoutActions ((5 : Nat) : Int)
        (86400000 + 2000)).executedActions.find 42 =
        some { requestId := 42, action := LSP_ACTION_HOVER, buffer := some sampleBuffer,
               creationTime := QTime.currentTime (86400000 - (5 * 1000 + 1)) } :=
  timeoutActions_keeps_expired_across_midnight 5 (by decide) (by decide) sampleManager 42
    LSP_ACTION_HOVER (some sampleBuffer) 2000

/-- C4: an action recorded at 23:59:59.000 and swept half a second later, within the timeout `T`
(any `T` from 1 s to 86399 s), is evicted by that sweep: the deadline `creationTime.addSecs(T)`
has wrapped past midnight and compares below the current time of day. A following
`getExecutedAction` returns the unknown sentinel. -/
theorem timeoutActions_evicts_before_timeout (T : Nat) (hT1 : 1 ≤ T) (hT2 : T < 86400)
    (m : LSPManager) (reqId : Int) (action : LSPActionKind) (buffer : Option Buffer) :
    86399500 - 86399000 ≤ T * 1000 ∧
      ((m.setExecutedAction 86399000 reqId action buffer).timeoutActions
        (T : Int) 86399500).executedActions.contains reqId = false ∧
      ((m.setExecutedAction 86399000 reqId action buffer).timeoutActions
        (T : Int) 86399500).getExecutedAction reqId =
        some (unknownAction, (m.setExecutedAction 86399000 reqId action buffer).timeoutActions
          (T : Int) 86399500) := by
  have hc : ((m.setExecutedAction 86399000 reqId action buffer).timeoutActions
      (T : Int) 86399500).executedActions.contains reqId = false := by
    have hval : (m.setExecutedAction 86399000 reqId action buffer).executedActions.value
        reqId default =
        { requestId := reqId, action := action, buffer := buffer,
          creationTime := QTime.currentTime 86399000 } := by
      simp [QMap.value, find_setExecutedAction]
    have hexp : expired (T : Int) 86399500
        { requestId := reqId, action := action, buffer := buffer,
          creationTime := QTime.currentTime 86399000 } = true := by
      rw [expired_eq _ _ _ (by simp only [QTime.currentTime, MSECS_PER_DAY]; omega)
        (by simp only [QTime.currentTime, MSECS_PER_DAY]; omega)]
      simp only [QTime.currentTime, MSECS_PER_DAY, decide_eq_true_eq]
      omega
    rw [QMap.contains, find_timeoutActions, hval, hexp]
    simp
  exact ⟨by omega, hc, getExecutedAction_of_not_contains _ reqId hc⟩

/-- C4 at the timeout of 5 s: recorded at 23:59:59.000, swept at 23:59:59.500, gone. -/
theorem timeoutActions_evicts_before_timeout_witness :
    86399500 - 86399000 ≤ 5 * 1000 ∧
      ((sampleManager.setExecutedAction 86399000 42 LSP_ACTION_HOVER
        (some sampleBuffer)).timeoutActions ((5 : Nat) : Int)
        86399500).executedActions.contains 42 = false ∧
      ((sampleManager.setExecutedAction 86399000 42 LSP_ACTION_HOVER
        (some sampleBuffer)).timeoutActions ((5 : Nat) : Int) 86399500).getExecutedAction 42 =
        some (unknownAction, (sampleManager.setExecutedAction 86399000 42 LSP_ACTION_HOVER
          (some sampleBuffer)).timeoutActions ((5 : Nat) : Int) 86399500) :=
  timeoutActions_evicts_before_timeout 5 (by decide) (by decide) sampleManager 42
    LSP_ACTION_HOVER (some sampleBuffer)

/-- C5: when the pending set is empty after a sweep, the sweep has made exactly one call on the
status bar of the manager's window, `setLspRunning(false)`, and the indicator is off; when
pending actions remain after the sweep, the window (status bar, indicator, calls received) is
what it was before the sweep. -/
theorem timeoutActions_indicator (timeoutS : Int) (m : LSPManager) (clock : Nat) :
    ((m.timeoutActions timeoutS clock).executedActions.size = 0 →
      ∀ w, m.window = some w →
        ∃ w1, (m.timeoutActions timeoutS clock).window = some w1 ∧
          w1.statusBar.calls = w.statusBar.calls ++ [StatusBarCall.setLspRunning false] ∧
          w1.statusBar.lspRunning = false) ∧
    ((m.timeoutActions timeoutS clock).executedActions.size ≠ 0 →
      (m.timeoutActions timeoutS clock).window = m.window) := by
  constructor
  · intro h0 w hw
    rw [executedActions_timeoutActions] at h0
    simp only [timeoutActions, h0, if_true, setLspRunningIfWindow, hw]
    exact ⟨_, rfl, rfl, rfl⟩
  · intro h0
    rw [executedActions_timeoutActions] at h0
    simp only [timeoutActions, h0, if_false]

/-- C5 at a sample input: the only pending action has timed out and the sweep empties the set. -/
theorem timeoutActions_indicator_witness :
    (((sampleManager.setExecutedAction 1000 42 LSP_ACTION_HOVER none).timeoutActions 5
        9000).executedActions.size = 0 →
      ∀ w, (sampleManager.setExecutedAction 1000 42 LSP_ACTION_HOVER none).window = some w →
        ∃ w1, ((sampleManager.setExecutedAction 1000 42 LSP_ACTION_HOVER none).timeoutActions 5
            9000).window = some w1 ∧
          w1.statusBar.calls = w.statusBar.calls ++ [StatusBarCall.setLspRunning false] ∧
          w1.statusBar.lspRunning = false) ∧
    (((sampleManager.setExecutedAction 1000 42 LSP_ACTION_HOVER none).timeoutActions 5
        9000).executedActions.size ≠ 0 →
      ((sampleManager.setExecutedAction 1000 42 LSP_ACTION_HOVER none).timeoutActions 5
        9000).window = (sampleManager.setExecutedAction 1000 42 LSP_ACTION_HOVER none).window) :=
  timeoutActions_indicator 5 (sampleManager.setExecutedAction 1000 42 LSP_ACTION_HOVER none) 9000

/-! ## Attaching buffers -/

theorem getLSP_eq_find (m : LSPManager) (id : String) : m.getLSP id = m.lspsPerFile.find id := by
  unfold getLSP QMap.contains
  cases m.lspsPerFile.find id <;> simp

/-- C8: on a manager with a window, no client and no managed buffer, for two buffers with
distinct ids and extension "go": `manageBuffer` on the first (the server process starting)
returns true, launches exactly one process, for one new gopls client, which is then the only
running client and the one `getLSP` gives for the first buffer; `manageBuffer` on the second
returns true, launches nothing (it only sends `openFile` to that client), the client list is
unchanged and `getLSP` gives that same client for both buffers. -/
theorem manageBuffer_two_go_buffers (m : LSPManager) (w : Window) (hw : m.window = some w)
    (hl : m.lsps = []) (hmap : ∀ id, m.getLSP id = none) (b1 b2 : Buffer)
    (hid : b1.id ≠ b2.id) (h1 : suffix b1.filename = "go") (h2 : suffix b2.filename = "go")
    (ok2 : Bool) :
    ∃ lsp m1 m2, lsp = LSP.generic m.nextAddr w.baseDir "go" "gopls" [] (goExtraEnv w) ∧
      m.manageBuffer true b1 = some (true, m1) ∧
      m1.calls = m.calls ++ [LSPCall.create lsp, LSPCall.start lsp true,
        LSPCall.init lsp b1.id, LSPCall.openFile lsp b1.id] ∧
      m1.lsps = [lsp] ∧ m1.getLSP b1.id = some lsp ∧
      m1.manageBuffer ok2 b2 = some (true, m2) ∧
      m2.calls = m1.calls ++ [LSPCall.openFile lsp b2.id] ∧
      m2.lsps = [lsp] ∧ m2.getLSP b1.id = some lsp ∧ m2.getLSP b2.id = some lsp := by
  have hc1 : m.lspsPerFile.contains b1.id = false := by
    have := hmap b1.id
    rw [getLSP_eq_find] at this
    simp [QMap.contains, this]
  have hc2 : m.lspsPerFile.find b2.id = none := by
    have := hmap b2.id
    rwa [getLSP_eq_find] at this
  refine ⟨LSP.generic m.nextAddr w.baseDir "go" "gopls" [] (goExtraEnv w),
    { m with
      nextAddr := m.nextAddr + 1
      lsps := [LSP.generic m.nextAddr w.baseDir "go" "gopls" [] (goExtraEnv w)]
      lspsPerFile := m.lspsPerFile.insert b1.id
        (LSP.generic m.nextAddr w.baseDir "go" "gopls" [] (goExtraEnv w))
      calls := m.calls ++
        [LSPCall.create (LSP.generic m.nextAddr w.baseDir "go" "gopls" [] (goExtraEnv w)),
         LSPCall.start (LSP.generic m.nextAddr w.baseDir "go" "gopls" [] (goExtraEnv w)) true,
         LSPCall.init (LSP.generic m.nextAddr w.baseDir "go" "gopls" [] (goExtraEnv w)) b1.id,
         LSPCall.openFile (LSP.generic m.nextAddr w.baseDir "go" "gopls" [] (goExtraEnv w))
           b1.id] },
    { m with
      nextAddr := m.nextAddr + 1
      lsps := [LSP.generic m.nextAddr w.baseDir "go" "gopls" [] (goExtraEnv w)]
      lspsPerFile := (m.lspsPerFile.insert b1.id
        (LSP.generic m.nextAddr w.baseDir "go" "gopls" [] (goExtraEnv w))).insert b2.id
        (LSP.generic m.nextAddr w.baseDir "go" "gopls" [] (goExtraEnv w))
      calls := (m.calls ++
        [LSPCall.create (LSP.generic m.nextAddr w.baseDir "go" "gopls" [] (goExtraEnv w)),
         LSPCall.start (LSP.generic m.nextAddr w.baseDir "go" "gopls" [] (goExtraEnv w)) true,
         LSPCall.init (LSP.generic m.nextAddr w.baseDir "go" "gopls" [] (goExtraEnv w)) b1.id,
         LSPCall.openFile (LSP.generic m.nextAddr w.baseDir "go" "gopls" [] (goExtraEnv w))
           b1.id]) ++
        [LSPCall.openFile (LSP.generic m.nextAddr w.baseDir "go" "gopls" [] (goExtraEnv w))
           b2.id] },
    rfl, ?_, rfl, rfl, ?_, ?_, rfl, rfl, ?_, ?_⟩
  · simp [manageBuffer, hw, hc1, forLanguage, hl, h1, start, launch]
  · simp [getLSP_eq_find, QMap.find_insert_self]
  · simp [manageBuffer, hw, forLanguage, h2, LSP.getLanguage, QMap.contains,
      QMap.find_insert_of_ne _ _ hid, hc2]
  · simp [getLSP_eq_find, QMap.find_insert_self, QMap.find_insert_of_ne _ _ hid.symm]
  · simp [getLSP_eq_find, QMap.find_insert_self]

/-- C8 at a sample input: two Go buffers attached to a fresh manager. -/
theorem manageBuffer_two_go_buffers_witness :
    ∃ lsp m1 m2, lsp = LSP.generic sampleManager.nextAddr sampleWindow.baseDir "go" "gopls" []
        (goExtraEnv sampleWindow) ∧
      sampleManager.manageBuffer true sampleBuffer = some (true, m1) ∧
      m1.calls = sampleManager.calls ++ [LSPCall.create lsp, LSPCall.start lsp true,
        LSPCall.init lsp sampleBuffer.id, LSPCall.openFile lsp sampleBuffer.id] ∧
      m1.lsps = [lsp] ∧ m1.getLSP sampleBuffer.id = some lsp ∧
      m1.manageBuffer true sampleBuffer2 = some (true, m2) ∧
      m2.calls = m1.calls ++ [LSPCall.openFile lsp sampleBuffer2.id] ∧
      m2.lsps = [lsp] ∧ m2.getLSP sampleBuffer.id = some lsp ∧
      m2.getLSP sampleBuffer2.id = some lsp :=
  manageBuffer_two_go_buffers sampleManager sampleWindow rfl rfl (fun _ => rfl) sampleBuffer
    sampleBuffer2 (by decide) (by decide) (by decide) true

/-- A launch whose process starts. -/
theorem launch_true (m : LSPManager) (b : Buffer) (mk : Nat → LSP) :
    m.launch true b mk =
      (some (mk m.nextAddr),
        { m with
          nextAddr := m.nextAddr + 1
          calls := m.calls ++ [LSPCall.create (mk m.nextAddr),
            LSPCall.start (mk m.nextAddr) true, LSPCall.init (mk m.nextAddr) b.id]
          lsps := m.lsps ++ [mk m.nextAddr] }) := by
  simp [launch]

/-- What a successful `start` returns: the process started, the new client was initialized
with the buffer and appended to the client list; its tag is the requested language with "h"
read as "cpp", the extension "rb" apart. -/
theorem start_eq_some_some {m m1 : LSPManager} {ok : Bool} {b : Buffer} {language : String}
    {lsp : LSP} (h : m.start ok b language = some (some lsp, m1)) :
    m1 = { m with
            nextAddr := m.nextAddr + 1
            calls := m.calls ++ [LSPCall.create lsp, LSPCall.start lsp true,
              LSPCall.init lsp b.id]
            lsps := m.lsps ++ [lsp] } ∧
      (language = "rb" ∨ lsp.getLanguage = if language = "h" then "cpp" else language) := by
  cases ok with
  | false =>
    unfold start at h
    cases hw : m.window <;> split_ifs at h <;> simp [hw, launch] at h
  | true =>
    cases hw : m.window with
    | none =>
      unfold start at h
      split_ifs at h <;> simp [hw] at h
    | some w =>
      simp only [start, hw, launch_true, Option.some.injEq, Prod.mk.injEq] at h
      split_ifs at h with h1 h2 h3 h4
      · obtain ⟨hl, hm⟩ := h
        subst h1
        exact ⟨rfl, Or.inr (by simp [LSP.getLanguage])⟩
      · obtain ⟨hl, hm⟩ := h
        refine ⟨rfl, Or.inr ?_⟩
        rcases h2 with h2 | h2 <;> subst h2 <;> simp [LSP.getLanguage]
      · obtain ⟨hl, hm⟩ := h
        refine ⟨rfl, ?_⟩
        rcases h3 with h3 | h3
        · exact Or.inl h3
        · subst h3
          exact Or.inr (by simp [LSP.getLanguage])
      · obtain ⟨hl, hm⟩ := h
        subst h4
        exact ⟨rfl, Or.inr (by simp [LSP.getLanguage])⟩
      · simp at h

/-- How a `manageBuffer` call that returns true came about: a client was found by
`forLanguage`, or none was found and `start` launched one; the client is then sent
`refreshFile` when the buffer id was already mapped, and otherwise mapped and sent `openFile`. -/
theorem manageBuffer_eq_some_true {m m1 : LSPManager} {ok : Bool} {b : Buffer}
    (h : m.manageBuffer ok b = some (true, m1)) :
    ∃ w lsp m0, m.window = some w ∧
      ((m0 = m ∧ m.forLanguage (suffix b.filename) = some lsp) ∨
        (m.forLanguage (suffix b.filename) = none ∧
          m.start ok b (suffix b.filename) = some (some lsp, m0))) ∧
      m1 = if m.lspsPerFile.contains b.id = true then
          { m0 with calls := m0.calls ++ [LSPCall.refreshFile lsp b.id] }
        else
          { m0 with lspsPerFile := m0.lspsPerFile.insert b.id lsp,
                    calls := m0.calls ++ [LSPCall.openFile lsp b.id] } := by
  unfold manageBuffer at h
  cases hw : m.window with
  | none => simp [hw] at h
  | some w =>
    simp only [hw] at h
    cases hf : m.forLanguage (suffix b.filename) with
    | some lsp =>
      simp only [hf] at h
      refine ⟨w, lsp, m, rfl, Or.inl ⟨rfl, rfl⟩, ?_⟩
      split_ifs at h with hc <;> simp [hc] at h ⊢ <;> exact h.symm
    | none =>
      simp only [hf] at h
      cases hs : m.start ok b (suffix b.filename) with
      | none => simp [hs] at h
      | some r =>
        obtain ⟨o, m0⟩ := r
        cases o with
        | none => simp [hs] at h
        | some lsp =>
          simp only [hs] at h
          have hm0 := (start_eq_some_some hs).1
          refine ⟨w, lsp, m0, rfl, Or.inr ⟨rfl, rfl⟩, ?_⟩
          have hmap : m0.lspsPerFile = m.lspsPerFile := by rw [hm0]
          split_ifs at h with hc <;> simp [hc] at h ⊢ <;> exact h.symm

/-- A `manageBuffer` call on a buffer whose id is mapped and whose extension has a client that
`forLanguage` finds: `refreshFile` is sent to that client and nothing else changes. -/
theorem manageBuffer_of_forLanguage_of_contains {m : LSPManager} {w : Window} {b : Buffer}
    {lsp : LSP} (ok : Bool) (hw : m.window = some w)
    (hf : m.forLanguage (suffix b.filename) = some lsp)
    (hc : m.lspsPerFile.contains b.id = true) :
    m.manageBuffer ok b =
      some (true, { m with calls := m.calls ++ [LSPCall.refreshFile lsp b.id] }) := by
  simp [manageBuffer, hw, hf, hc]

/-- C6 (amended): for every buffer whose extension is not "rb" and for which a `manageBuffer`
call returned true, an immediately following `manageBuffer` call on the same buffer returns
true and does nothing but send `refreshFile` to the client the first call used (no `openFile`,
no process launch, client list and buffer-to-client map unchanged); across the two calls the
number of `openFile` calls for that buffer id is one when the buffer was unmapped before the
first call (which then sent it to that client and mapped the buffer to it) and zero when it
was already mapped (the first call then sent `refreshFile` to that client). -/
theorem manageBuffer_twice (m m1 : LSPManager) (ok1 ok2 : Bool) (b : Buffer)
    (hrb : suffix b.filename ≠ "rb") (h1 : m.manageBuffer ok1 b = some (true, m1)) :
    ∃ lsp cs, m1.calls = m.calls ++ cs ∧
      m1.manageBuffer ok2 b =
        some (true, { m1 with calls := m1.calls ++ [LSPCall.refreshFile lsp b.id] }) ∧
      (cs ++ [LSPCall.refreshFile lsp b.id]).countP (LSPCall.isOpenFile b.id) =
        (if m.lspsPerFile.contains b.id = true then 0 else 1) ∧
      (m.lspsPerFile.contains b.id = false →
        LSPCall.openFile lsp b.id ∈ cs ∧ m1.getLSP b.id = some lsp) ∧
      (m.lspsPerFile.contains b.id = true → LSPCall.refreshFile lsp b.id ∈ cs) := by
  obtain ⟨w, lsp, m0, hw, hcase, hm1⟩ := manageBuffer_eq_some_true h1
  have hm0 : m0.window = some w ∧ m0.lspsPerFile = m.lspsPerFile ∧
      m0.forLanguage (suffix b.filename) = some lsp ∧
      ∃ cs0, m0.calls = m.calls ++ cs0 ∧ cs0.countP (LSPCall.isOpenFile b.id) = 0 := by
    rcases hcase with ⟨h0, hf⟩ | ⟨hf, hs⟩
    · subst h0
      exact ⟨hw, rfl, hf, [], by simp, rfl⟩
    · obtain ⟨h0, htag⟩ := start_eq_some_some hs
      have htag1 : lsp.getLanguage =
          if suffix b.filename = "h" then "cpp" else suffix b.filename := by
        rcases htag with htag | htag
        · exact absurd htag hrb
        · exact htag
      have hf1 : m.lsps.find? (fun l => decide (l.getLanguage =
          if suffix b.filename = "h" then "cpp" else suffix b.filename)) = none := hf
      subst h0
      refine ⟨hw, rfl, ?_, _, rfl, ?_⟩
      · simp only [forLanguage, List.find?_append, hf1, Option.none_or]
        simp [htag1]
      · simp [List.countP_cons, LSPCall.isOpenFile]
  obtain ⟨hw0, hmap0, hf0, cs0, hcs0, hcount0⟩ := hm0
  by_cases hc : m.lspsPerFile.contains b.id = true
  · rw [if_pos hc] at hm1
    have hw1 : m1.window = some w := by rw [hm1]; exact hw0
    have hf1 : m1.forLanguage (suffix b.filename) = some lsp := by rw [hm1]; exact hf0
    have hc1 : m1.lspsPerFile.contains b.id = true := by rw [hm1]; simpa [hmap0] using hc
    refine ⟨lsp, cs0 ++ [LSPCall.refreshFile lsp b.id], ?_,
      manageBuffer_of_forLanguage_of_contains ok2 hw1 hf1 hc1, ?_, ?_, ?_⟩
    · rw [hm1]; simp [hcs0]
    · simp [hc, List.countP_append, hcount0, List.countP_cons, LSPCall.isOpenFile]
    · intro hn; rw [hn] at hc; exact absurd hc (by decide)
    · intro _; simp
  · rw [if_neg hc] at hm1
    have hw1 : m1.window = some w := by rw [hm1]; exact hw0
    have hf1 : m1.forLanguage (suffix b.filename) = some lsp := by rw [hm1]; exact hf0
    have hfind : m1.lspsPerFile.find b.id = some lsp := by
      rw [hm1]; simp [QMap.find_insert_self]
    have hc1 : m1.lspsPerFile.contains b.id = true := by simp [QMap.contains, hfind]
    refine ⟨lsp, cs0 ++ [LSPCall.openFile lsp b.id], ?_,
      manageBuffer_of_forLanguage_of_contains ok2 hw1 hf1 hc1, ?_, ?_, ?_⟩
    · rw [hm1]; simp [hcs0]
    · simp [hc, List.countP_append, hcount0, List.countP_cons, LSPCall.isOpenFile]
    · intro _
      exact ⟨by simp, by rw [getLSP_eq_find]; exact hfind⟩
    · intro hn; exact absurd hn hc

/-- C6 (amended) at a sample input: a Go buffer attached to a fresh manager, then attached
again. -/
theorem manageBuffer_twice_witness :
    suffix sampleBuffer.filename ≠ "rb" ∧
      sampleManager.manageBuffer true sampleBuffer = some (true, sampleManaged) ∧
      ∃ lsp cs, sampleManaged.calls = sampleManager.calls ++ cs ∧
        sampleManaged.manageBuffer false sampleBuffer =
          some (true, { sampleManaged with
            calls := sampleManaged.calls ++ [LSPCall.refreshFile lsp sampleBuffer.id] }) ∧
        (cs ++ [LSPCall.refreshFile lsp sampleBuffer.id]).countP
            (LSPCall.isOpenFile sampleBuffer.id) =
          (if sampleManager.lspsPerFile.contains sampleBuffer.id = true then 0 else 1) ∧
        (sampleManager.lspsPerFile.contains sampleBuffer.id = false →
          LSPCall.openFile lsp sampleBuffer.id ∈ cs ∧
            sampleManaged.getLSP sampleBuffer.id = some lsp) ∧
        (sampleManager.lspsPerFile.contains sampleBuffer.id = true →
          LSPCall.refreshFile lsp sampleBuffer.id ∈ cs) :=
  ⟨by decide, by decide,
    manageBuffer_twice sampleManager sampleManaged true false sampleBuffer (by decide)
      (by decide)⟩

/-- C6 as stated fails: on the manager `sampleManaged`, where the Go buffer is already mapped,
a `manageBuffer` call returns true and the immediately following call on the same buffer returns
true, yet both calls send `refreshFile`, so the number of `openFile` calls for that buffer id
across the two calls is zero, not one. -/
theorem manageBuffer_mapped_twice_sends_no_openFile :
    sampleManager.manageBuffer true sampleBuffer = some (true, sampleManaged) ∧
      (sampleManaged.manageBuffer true sampleBuffer).map Prod.fst = some true ∧
      ((sampleManaged.manageBuffer true sampleBuffer).bind
        (fun r => (r.2.manageBuffer true sampleBuffer).map
          (fun r2 => (r2.1, r2.2.calls.drop sampleManaged.calls.length)))) =
        some (true,
          [LSPCall.refreshFile (LSP.generic 0 "/src" "go" "gopls" [] []) sampleBuffer.id,
           LSPCall.refreshFile (LSP.generic 0 "/src" "go" "gopls" [] []) sampleBuffer.id]) ∧
      ¬ ([LSPCall.refreshFile (LSP.generic 0 "/src" "go" "gopls" [] []) sampleBuffer.id,
          LSPCall.refreshFile (LSP.generic 0 "/src" "go" "gopls" [] []) sampleBuffer.id].countP
            (LSPCall.isOpenFile sampleBuffer.id) = 1) := by
  decide

/-- C7: with the extension "rb", `manageBuffer` returns false although the buffer id is mapped
to a client after the call. The first call starts solargraph and maps the buffer; the second
call does not find that client (its tag is "ruby", the lookup asks for "rb"), tries to start
another one, and the process failing to start, returns false while `getLSP` still gives the
first client. -/
theorem manageBuffer_false_although_mapped :
    sampleManager.manageBuffer true sampleRbBuffer = some (true, sampleRbManaged) ∧
      (sampleRbManaged.manageBuffer false sampleRbBuffer).map Prod.fst = some false ∧
      (sampleRbManaged.manageBuffer false sampleRbBuffer).map
          (fun r => r.2.getLSP sampleRbBuffer.id) =
        some (some (LSP.generic 0 "/src" "ruby" "solargraph" ["stdio"] [])) := by
  decide

/-- C9: two buffers with the extension "rb" leave two running clients with the same language
tag. The first `manageBuffer` starts solargraph, tagged "ruby"; the second looks up the tag
"rb", finds no client, and starts a second solargraph process, tagged "ruby" as well. -/
theorem manageBuffer_rb_twice_two_clients :
    sampleManager.manageBuffer true sampleRbBuffer = some (true, sampleRbManaged) ∧
      sampleRbManaged.lsps = [LSP.generic 0 "/src" "ruby" "solargraph" ["stdio"] []] ∧
      (sampleRbManaged.manageBuffer true sampleRbBuffer2).map (fun r => (r.1, r.2.lsps)) =
        some (true, [LSP.generic 0 "/src" "ruby" "solargraph" ["stdio"] [],
                     LSP.generic 1 "/src" "ruby" "solargraph" ["stdio"] []]) ∧
      (sampleRbManaged.manageBuffer true sampleRbBuffer2).map
          (fun r => r.2.lsps.map LSP.getLanguage) = some ["ruby", "ruby"] ∧
      (sampleRbManaged.manageBuffer true sampleRbBuffer2).map
          (fun r => (r.2.calls.drop sampleRbManaged.calls.length).countP LSPCall.isStart) =
        some 1 := by
  decide

/-! ## The loop of `reload` -/

theorem takeAt_of_lt {α : Type} (l : List α) (i : Nat) (h : i < l.length) :
    ∃ a, takeAt l i = some (a, l.eraseIdx i) := by
  unfold takeAt
  rw [List.get?_eq_get h]
  exact ⟨_, rfl⟩

/-- The loop of `reload` has ended once the fuel covers the part of the list past the index:
more fuel gives the same result. -/
theorem reloadLoop_fuel_succ (fuel : Nat) :
    ∀ (i : Nat) (lsps deleted : List LSP), lsps.length - i ≤ fuel →
      reloadLoop (fuel + 1) i lsps deleted = reloadLoop fuel i lsps deleted := by
  induction fuel with
  | zero =>
    intro i lsps deleted h
    have hi : ¬ i < lsps.length := by omega
    simp [reloadLoop, hi]
  | succ n ih =>
    intro i lsps deleted h
    by_cases hi : i < lsps.length
    · obtain ⟨a, ha⟩ := takeAt_of_lt lsps i hi
      have hlen : (lsps.eraseIdx i).length - (i + 1) ≤ n := by
        rw [List.length_eraseIdx, if_pos hi]
        omega
      have hstep : ∀ k, reloadLoop (k + 1) i lsps deleted =
          reloadLoop k (i + 1) (lsps.eraseIdx i) (deleted ++ [a]) := by
        intro k
        simp [reloadLoop, hi, ha]
      rw [hstep (n + 1), hstep n, ih _ _ _ hlen]
    · have hstop : ∀ k, reloadLoop (k + 1) i lsps deleted = (lsps, deleted) := by
        intro k
        simp [reloadLoop, hi]
      rw [hstop (n + 1), hstop n]

/-- From index 1 on, the loop of `reload` never touches the client at the front of the list. -/
theorem reloadLoop_cons_of_pos (fuel : Nat) :
    ∀ (i : Nat) (b : LSP) (t deleted : List LSP), 1 ≤ i →
      ∃ t1, (reloadLoop fuel i (b :: t) deleted).1 = b :: t1 := by
  induction fuel with
  | zero =>
    intro i b t deleted _
    exact ⟨t, rfl⟩
  | succ n ih =>
    intro i b t deleted hi
    by_cases hlt : i < (b :: t).length
    · obtain ⟨x, hx⟩ := takeAt_of_lt (b :: t) i hlt
      have hstep : reloadLoop (n + 1) i (b :: t) deleted =
          reloadLoop n (i + 1) ((b :: t).eraseIdx i) (deleted ++ [x]) := by
        rw [reloadLoop, if_pos hlt, hx]
      have herase : (b :: t).eraseIdx i = b :: t.eraseIdx (i - 1) := by
        cases i with
        | zero => omega
        | succ j => simp
      rw [hstep, herase]
      exact ih (i + 1) b _ _ (by omega)
    · exact ⟨t, by rw [reloadLoop, if_neg hlt]⟩

/-- A launch leaves the window and the buffer-to-client map alone and removes no client. -/
theorem launch_spec (m : LSPManager) (ok : Bool) (b : Buffer) (mk : Nat → LSP) :
    (m.launch ok b mk).2.window = m.window ∧
      (m.launch ok b mk).2.lspsPerFile = m.lspsPerFile ∧
      ∀ x ∈ m.lsps, x ∈ (m.launch ok b mk).2.lsps := by
  cases ok
  · simp [launch]
  · refine ⟨by simp [launch], by simp [launch], ?_⟩
    intro x hx
    simp [launch, hx]

theorem exists_of_launch (m : LSPManager) (w : Window) (hw : m.window = some w) (ok : Bool)
    (b : Buffer) (mk : Nat → LSP) :
    ∃ o m1, some (m.launch ok b mk) = some (o, m1) ∧ m1.window = some w ∧
      m1.lspsPerFile = m.lspsPerFile ∧ ∀ x ∈ m.lsps, x ∈ m1.lsps :=
  ⟨(m.launch ok b mk).1, (m.launch ok b mk).2, rfl, (launch_spec m ok b mk).1.trans hw,
    (launch_spec m ok b mk).2.1, (launch_spec m ok b mk).2.2⟩

/-- With a window, `start` returns, and every running client is still running afterwards. -/
theorem start_of_window (m : LSPManager) (w : Window) (hw : m.window = some w) (ok : Bool)
    (b : Buffer) (language : String) :
    ∃ o m1, m.start ok b language = some (o, m1) ∧ m1.window = some w ∧
      m1.lspsPerFile = m.lspsPerFile ∧ ∀ x ∈ m.lsps, x ∈ m1.lsps := by
  unfold start
  simp only [hw]
  split_ifs
  · exact exists_of_launch m w hw ok b _
  · exact exists_of_launch m w hw ok b _
  · exact exists_of_launch m w hw ok b _
  · exact exists_of_launch m w hw ok b _
  · exact ⟨none, m, rfl, hw, rfl, fun x hx => hx⟩

/-- With a window, `manageBuffer` returns, and every running client is still running
afterwards. -/
theorem manageBuffer_of_window (m : LSPManager) (w : Window) (hw : m.window = some w)
    (ok : Bool) (b : Buffer) :
    ∃ r m1, m.manageBuffer ok b = some (r, m1) ∧ m1.window = some w ∧
      ∀ x ∈ m.lsps, x ∈ m1.lsps := by
  unfold manageBuffer
  simp only [hw]
  cases hf : m.forLanguage (suffix b.filename) with
  | some lsp =>
    by_cases hc : m.lspsPerFile.contains b.id = true
    · exact ⟨true, { m with calls := m.calls ++ [LSPCall.refreshFile lsp b.id] },
        by simp [hc], hw, fun x hx => hx⟩
    · exact ⟨true, { m with lspsPerFile := m.lspsPerFile.insert b.id lsp,
                            calls := m.calls ++ [LSPCall.openFile lsp b.id] },
        by simp [hc], hw, fun x hx => hx⟩
  | none =>
    obtain ⟨o, m1, hs, hw1, _, hmem⟩ := start_of_window m w hw ok b (suffix b.filename)
    cases o with
    | none => exact ⟨false, m1, by simp [hs], hw1, hmem⟩
    | some lsp =>
      by_cases hc : m.lspsPerFile.contains b.id = true
      · exact ⟨true, { m1 with calls := m1.calls ++ [LSPCall.refreshFile lsp b.id] },
          by simp [hs, hc], hw1, hmem⟩
      · exact ⟨true, { m1 with lspsPerFile := m1.lspsPerFile.insert b.id lsp,
                               calls := m1.calls ++ [LSPCall.openFile lsp b.id] },
          by simp [hs, hc], hw1, hmem⟩

/-- C10: on every manager with a window and at least two running clients, `reload` returns and
the second client of the list from before the reload is still in the list after it. The loop
`for (i = 0; i < lsps.size(); i++) delete lsps.takeAt(i)` takes index 0, then moves on to
index 1 of the shortened list, and the client that slid to index 0 is never taken. -/
theorem reload_keeps_second_client (m : LSPManager) (w : Window) (hw : m.window = some w)
    (a b : LSP) (rest : List LSP) (hl : m.lsps = a :: b :: rest) (ok : Bool)
    (buffer : Buffer) :
    ∃ m1, m.reload ok buffer = some m1 ∧ b ∈ m.lsps ∧ b ∈ m1.lsps := by
  have hfirst : reloadLoop (a :: b :: rest).length 0 (a :: b :: rest) [] =
      reloadLoop (rest.length + 1) 1 (b :: rest) [a] := by
    simp [reloadLoop, takeAt]
  obtain ⟨t1, ht1⟩ := reloadLoop_cons_of_pos (rest.length + 1) 1 b rest [a] (le_refl 1)
  obtain ⟨r, m1, h1, _, hmem⟩ := manageBuffer_of_window
    { m with
      cleanTimer := { m.cleanTimer with active := false }
      lspsPerFile := m.lspsPerFile.clear
      lsps := (reloadLoop m.lsps.length 0 m.lsps []).1
      calls := m.calls ++ (reloadLoop m.lsps.length 0 m.lsps []).2.map LSPCall.destroy }
    w hw ok buffer
  refine ⟨m1, ?_, by simp [hl], ?_⟩
  · simp only [reload]
    rw [h1]
    rfl
  · apply hmem
    show b ∈ (reloadLoop m.lsps.length 0 m.lsps []).1
    rw [hl, hfirst, ht1]
    exact List.mem_cons_self b t1

/-- C10 at a sample input: the gopls and clangd clients are running, the Go buffer is reloaded,
and the clangd client is still in the list. -/
theorem reload_keeps_second_client_witness :
    sampleTwoClients.lsps = [LSP.generic 0 "/src" "go" "gopls" [] [], LSP.clangd 1 "/src"] ∧
      ∃ m1, sampleTwoClients.reload true sampleBuffer = some m1 ∧
        LSP.clangd 1 "/src" ∈ sampleTwoClients.lsps ∧ LSP.clangd 1 "/src" ∈ m1.lsps :=
  ⟨by decide,
    reload_keeps_second_client sampleTwoClients sampleWindow (by decide)
      (LSP.generic 0 "/src" "go" "gopls" [] []) (LSP.clangd 1 "/src") [] (by decide) true
      sampleBuffer⟩

/-- The reload of the sample input evaluated: the manager with the gopls and clangd clients is
reached by two `manageBuffer` calls; the reload deletes the gopls client only and starts a new
one, so the list holds the old clangd client and the new gopls client. -/
theorem reload_sample_trace :
    sampleManager.manageBuffer true sampleBuffer = some (true, sampleManaged) ∧
      sampleManaged.manageBuffer true sampleCppBuffer = some (true, sampleTwoClients) ∧
      (sampleTwoClients.reload true sampleBuffer).map (fun m => m.lsps) =
        some [LSP.clangd 1 "/src", LSP.generic 2 "/src" "go" "gopls" [] []] ∧
      (sampleTwoClients.reload true sampleBuffer).map
          (fun m => m.calls.drop sampleTwoClients.calls.length) =
        some [LSPCall.destroy (LSP.generic 0 "/src" "go" "gopls" [] []),
              LSPCall.create (LSP.generic 2 "/src" "go" "gopls" [] []),
              LSPCall.start (LSP.generic 2 "/src" "go" "gopls" [] []) true,
              LSPCall.init (LSP.generic 2 "/src" "go" "gopls" [] []) sampleBuffer.id,
              LSPCall.openFile (LSP.generic 2 "/src" "go" "gopls" [] []) sampleBuffer.id] := by
  decide

end LSPManager

/-! ## Facts about `operator[]` -/

namespace QMap

variable {κ α : Type} [DecidableEq κ] [QMapKey κ] [Inhabited α]

theorem index_fst (m : QMap κ α) (k : κ) : (m.index k).1 = m.value k default := by
  unfold index value
  cases m.find k <;> rfl

theorem find_index_snd (m : QMap κ α) (k k1 : κ) :
    (m.index k).2.find k1 = if k = k1 then some (m.value k default) else m.find k1 := by
  unfold index value
  cases hf : m.find k with
  | some v =>
    by_cases h : k = k1
    · subst h; simp [hf]
    · simp [h]
  | none =>
    by_cases h : k = k1
    · subst h; simp [find_insert_self]
    · simp [h, find_insert_of_ne _ _ h]

omit [QMapKey κ] [Inhabited α] in
theorem value_eq_of_find_eq {m1 m2 : QMap κ α} {k : κ} (h : m1.find k = m2.find k) (dflt : α) :
    m1.value k dflt = m2.value k dflt := by
  simp [value, h]

end QMap

/-! ## The diagnostics store -/

namespace LSPManager

theorem getDiagnostics_fst (m : LSPManager) (f : String) :
    (m.getDiagnostics f).1 = m.diagnostics.value f default := by
  simp [getDiagnostics, QMap.index_fst]

/-- The entry of a path after `addDiagnostic`: for the path written to, the previous entry with
the line's list extended by the diagnostic; for any other path, the previous entry. -/
theorem find_diagnostics_addDiagnostic (m : LSPManager) (f g : String) (d : LSPDiagnostic) :
    (m.addDiagnostic f d).diagnostics.find g =
      if f = g then
        some ((((m.diagnostics.value f default).index d.line).2.insert d.line
          ((m.diagnostics.value f default).value d.line default ++ [d])).insert d.line
          ((m.diagnostics.value f default).value d.line default ++ [d]))
      else m.diagnostics.find g := by
  by_cases h : f = g
  · subst h
    simp [addDiagnostic, QMap.find_insert_self, QMap.index_fst, QMap.value]
  · simp [addDiagnostic, h, QMap.find_insert_of_ne _ _ h, QMap.find_index_snd]

/-- The list of a line of the path written to, after `addDiagnostic`. -/
theorem find_line_addDiagnostic (m : LSPManager) (f : String) (d : LSPDiagnostic) (l : Int) :
    ((m.addDiagnostic f d).getDiagnostics f).1.find l =
      if d.line = l then some ((m.getDiagnostics f).1.value d.line [] ++ [d])
      else (m.getDiagnostics f).1.find l := by
  rw [getDiagnostics_fst, getDiagnostics_fst, QMap.value, find_diagnostics_addDiagnostic,
    if_pos rfl, Option.getD_some]
  by_cases h : d.line = l
  · subst h
    simp only [QMap.find_insert_self, if_true]
    rfl
  · rw [QMap.find_insert_of_ne _ _ h, QMap.find_insert_of_ne _ _ h, QMap.find_index_snd,
      if_neg h, if_neg h]

/-- The list of a line after a run of `addDiagnostic` calls for that line. -/
theorem value_line_addDiagnostics (f : String) (l : Int) (diags : List LSPDiagnostic) :
    ∀ m : LSPManager, (∀ x ∈ diags, x.line = l) →
      ((m.addDiagnostics f diags).getDiagnostics f).1.value l [] =
        (m.getDiagnostics f).1.value l [] ++ diags := by
  induction diags with
  | nil => intro m _; simp [addDiagnostics]
  | cons d ds ih =>
    intro m h
    have hd : d.line = l := h d (List.mem_cons_self d ds)
    have hstep : m.addDiagnostics f (d :: ds) = (m.addDiagnostic f d).addDiagnostics f ds := rfl
    rw [hstep, ih _ (fun x hx => h x (List.mem_cons_of_mem d hx))]
    have h1 : ((m.addDiagnostic f d).getDiagnostics f).1.value l [] =
        (m.getDiagnostics f).1.value l [] ++ [d] := by
      rw [QMap.value, find_line_addDiagnostic, if_pos hd, hd]
      rfl
    rw [h1]
    simp

/-- C14: after `addDiagnostic(f, d)` the list read back at `(f, d.line)` is the previous list
followed by `d`, once; the lists at every other line of `f` and the entries of every other
path are what they were; and after `addDiagnostic` of each entry of a list `diags` for one
line, in order, the list read back at that line is the previous list followed by `diags`. -/
theorem addDiagnostic_appends (m : LSPManager) (f : String) (d : LSPDiagnostic) (line : Int)
    (diags : List LSPDiagnostic) :
    ((m.addDiagnostic f d).getDiagnostics f).1.value d.line [] =
        (m.getDiagnostics f).1.value d.line [] ++ [d] ∧
      (∀ l, l ≠ d.line →
        ((m.addDiagnostic f d).getDiagnostics f).1.find l = (m.getDiagnostics f).1.find l) ∧
      (∀ g, g ≠ f → ((m.addDiagnostic f d).getDiagnostics g).1 = (m.getDiagnostics g).1) ∧
      ((∀ x ∈ diags, x.line = line) →
        ((m.addDiagnostics f diags).getDiagnostics f).1.value line [] =
          (m.getDiagnostics f).1.value line [] ++ diags) := by
  refine ⟨?_, ?_, ?_, value_line_addDiagnostics f line diags m⟩
  · rw [QMap.value, find_line_addDiagnostic, if_pos rfl]
    rfl
  · intro l hl
    rw [find_line_addDiagnostic, if_neg (fun h => hl h.symm)]
  · intro g hg
    rw [getDiagnostics_fst, getDiagnostics_fst]
    exact QMap.value_eq_of_find_eq
      (by rw [find_diagnostics_addDiagnostic, if_neg (fun h => hg h.symm)]) _

/-- C14 at a sample input: two diagnostics added for line 3 of one file are read back in the
order they were added. -/
theorem addDiagnostic_appends_witness :
    ((sampleManager.addDiagnostic "/src/main.go" sampleDiagnostic).getDiagnostics
        "/src/main.go").1.value sampleDiagnostic.line [] =
        (sampleManager.getDiagnostics "/src/main.go").1.value sampleDiagnostic.line [] ++
          [sampleDiagnostic] ∧
      (∀ l, l ≠ sampleDiagnostic.line →
        ((sampleManager.addDiagnostic "/src/main.go" sampleDiagnostic).getDiagnostics
          "/src/main.go").1.find l = (sampleManager.getDiagnostics "/src/main.go").1.find l) ∧
      (∀ g, g ≠ "/src/main.go" →
        ((sampleManager.addDiagnostic "/src/main.go" sampleDiagnostic).getDiagnostics g).1 =
          (sampleManager.getDiagnostics g).1) ∧
      ((∀ x ∈ [sampleDiagnostic, sampleDiagnostic2], x.line = 3) →
        ((sampleManager.addDiagnostics "/src/main.go"
          [sampleDiagnostic, sampleDiagnostic2]).getDiagnostics "/src/main.go").1.value 3 [] =
          (sampleManager.getDiagnostics "/src/main.go").1.value 3 [] ++
            [sampleDiagnostic, sampleDiagnostic2]) :=
  addDiagnostic_appends sampleManager "/src/main.go" sampleDiagnostic 3
    [sampleDiagnostic, sampleDiagnostic2]

/-- The entry of a path after `clearDiagnostics`. -/
theorem find_diagnostics_clearDiagnostics (m : LSPManager) (f g : String) :
    (m.clearDiagnostics f).diagnostics.find g =
      if f = g then none else m.diagnostics.find g := by
  by_cases h : f = g
  · subst h
    simp [clearDiagnostics, QMap.find_remove_self]
  · simp [clearDiagnostics, h, QMap.find_remove_of_ne _ h, QMap.find_insert_of_ne _ _ h,
      QMap.find_index_snd]

/-- C15: after `clearDiagnostics(f)`, `getDiagnostics(f)` is the empty mapping, as it is for
every path that has no entry in the store, and for every other path `g`, `getDiagnostics(g)`
is what it was before the call. -/
theorem clearDiagnostics_one_file (m : LSPManager) (f g : String) (hne : f ≠ g) :
    ((m.clearDiagnostics f).getDiagnostics f).1 = QMap.empty ∧
      ((m.clearDiagnostics f).getDiagnostics g).1 = (m.getDiagnostics g).1 ∧
      (∀ p, m.diagnostics.contains p = false → (m.getDiagnostics p).1 = QMap.empty) := by
  refine ⟨?_, ?_, ?_⟩
  · rw [getDiagnostics_fst, QMap.value, find_diagnostics_clearDiagnostics, if_pos rfl]
    rfl
  · rw [getDiagnostics_fst, getDiagnostics_fst]
    exact QMap.value_eq_of_find_eq
      (by rw [find_diagnostics_clearDiagnostics, if_neg hne]) _
  · intro p hp
    have hnone : m.diagnostics.find p = none := by
      simpa [QMap.contains] using hp
    rw [getDiagnostics_fst, QMap.value, hnone]
    rfl

/-- C15 at a sample input: two files have diagnostics and the first is cleared. -/
theorem clearDiagnostics_one_file_witness :
    "/src/main.go" ≠ "/src/util.go" ∧
      ((((sampleManager.addDiagnostic "/src/main.go" sampleDiagnostic).addDiagnostic
        "/src/util.go" sampleDiagnostic2).clearDiagnostics "/src/main.go").getDiagnostics
          "/src/main.go").1 = QMap.empty ∧
      ((((sampleManager.addDiagnostic "/src/main.go" sampleDiagnostic).addDiagnostic
        "/src/util.go" sampleDiagnostic2).clearDiagnostics "/src/main.go").getDiagnostics
          "/src/util.go").1 =
        (((sampleManager.addDiagnostic "/src/main.go" sampleDiagnostic).addDiagnostic
          "/src/util.go" sampleDiagnostic2).getDiagnostics "/src/util.go").1 ∧
      (∀ p, ((sampleManager.addDiagnostic "/src/main.go" sampleDiagnostic).addDiagnostic
          "/src/util.go" sampleDiagnostic2).diagnostics.contains p = false →
        (((sampleManager.addDiagnostic "/src/main.go" sampleDiagnostic).addDiagnostic
          "/src/util.go" sampleDiagnostic2).getDiagnostics p).1 = QMap.empty) :=
  ⟨by decide,
    clearDiagnostics_one_file
      ((sampleManager.addDiagnostic "/src/main.go" sampleDiagnostic).addDiagnostic
        "/src/util.go" sampleDiagnostic2) "/src/main.go" "/src/util.go" (by decide)⟩

/-! ## What `reload` keeps and what it rebuilds -/

theorem reload_eq_manageBuffer (m : LSPManager) (ok : Bool) (b : Buffer) :
    m.reload ok b = (m.reloadPrepared.manageBuffer ok b).map Prod.snd := rfl

/-- A launch makes no `openFile` or `refreshFile` call, touches neither the pending set, the
diagnostics, the timer, the window nor the buffer-to-client map, and a client it returns is
running. -/
theorem launch_full (m : LSPManager) (ok : Bool) (b : Buffer) (mk : Nat → LSP) :
    ∃ cs, (m.launch ok b mk).2.calls = m.calls ++ cs ∧ (∀ c ∈ cs, c.isFileCall = false) ∧
      (m.launch ok b mk).2.executedActions = m.executedActions ∧
      (m.launch ok b mk).2.diagnostics = m.diagnostics ∧
      (m.launch ok b mk).2.cleanTimer = m.cleanTimer ∧
      (m.launch ok b mk).2.window = m.window ∧
      (m.launch ok b mk).2.lspsPerFile = m.lspsPerFile ∧
      (∀ lsp, (m.launch ok b mk).1 = some lsp → lsp ∈ (m.launch ok b mk).2.lsps) := by
  cases ok
  · refine ⟨[LSPCall.create (mk m.nextAddr), LSPCall.start (mk m.nextAddr) false,
      LSPCall.destroy (mk m.nextAddr)], by simp [launch], ?_, rfl, rfl, rfl, rfl, rfl, ?_⟩
    · intro c hc
      simp only [List.mem_cons, List.mem_singleton, List.not_mem_nil, or_false] at hc
      rcases hc with hc | hc | hc <;> subst hc <;> rfl
    · intro lsp h
      simp [launch] at h
  · refine ⟨[LSPCall.create (mk m.nextAddr), LSPCall.start (mk m.nextAddr) true,
      LSPCall.init (mk m.nextAddr) b.id], by simp [launch], ?_, rfl, rfl, rfl, rfl, rfl, ?_⟩
    · intro c hc
      simp only [List.mem_cons, List.mem_singleton, List.not_mem_nil, or_false] at hc
      rcases hc with hc | hc | hc <;> subst hc <;> rfl
    · intro lsp h
      simp [launch] at h
      subst h
      simp [launch]

/-- The frame of `start` on a manager with a window. -/
theorem start_full (m : LSPManager) (w : Window) (hw : m.window = some w) (ok : Bool)
    (b : Buffer) (language : String) :
    ∃ o m1 cs, m.start ok b language = some (o, m1) ∧ m1.calls = m.calls ++ cs ∧
      (∀ c ∈ cs, c.isFileCall = false) ∧
      m1.executedActions = m.executedActions ∧ m1.diagnostics = m.diagnostics ∧
      m1.cleanTimer = m.cleanTimer ∧ m1.window = some w ∧
      m1.lspsPerFile = m.lspsPerFile ∧ (∀ lsp, o = some lsp → lsp ∈ m1.lsps) := by
  have key : ∀ mk : Nat → LSP, ∃ o m1 cs, some (m.launch ok b mk) = some (o, m1) ∧
      m1.calls = m.calls ++ cs ∧ (∀ c ∈ cs, c.isFileCall = false) ∧
      m1.executedActions = m.executedActions ∧ m1.diagnostics = m.diagnostics ∧
      m1.cleanTimer = m.cleanTimer ∧ m1.window = some w ∧
      m1.lspsPerFile = m.lspsPerFile ∧ (∀ lsp, o = some lsp → lsp ∈ m1.lsps) := by
    intro mk
    obtain ⟨cs, h1, h2, h3, h4, h5, h6, h7, h8⟩ := launch_full m ok b mk
    exact ⟨(m.launch ok b mk).1, (m.launch ok b mk).2, cs, rfl, h1, h2, h3, h4, h5,
      h6.trans hw, h7, h8⟩
  unfold start
  simp only [hw]
  split_ifs
  · exact key _
  · exact key _
  · exact key _
  · exact key _
  · exact ⟨none, m, [], rfl, by simp, by simp, rfl, rfl, rfl, hw, rfl, by simp⟩

/-- The frame of `manageBuffer` on a manager with a window: it returns; it touches neither the
pending set, the diagnostics, the timer nor the window; and on a buffer whose id is not mapped
it either resolves no client, makes no file call and leaves the map alone, or maps the id to a
running client and ends with `openFile` for it, with no other file call. -/
theorem manageBuffer_full (m : LSPManager) (w : Window) (hw : m.window = some w) (ok : Bool)
    (b : Buffer) :
    ∃ r m1 cs, m.manageBuffer ok b = some (r, m1) ∧
      m1.executedActions = m.executedActions ∧ m1.diagnostics = m.diagnostics ∧
      m1.cleanTimer = m.cleanTimer ∧ m1.window = some w ∧
      (∀ c ∈ cs, c.isFileCall = false) ∧
      (m.lspsPerFile.contains b.id = false →
        (r = false ∧ m1.lspsPerFile = m.lspsPerFile ∧ m1.calls = m.calls ++ cs) ∨
        (r = true ∧ ∃ lsp, lsp ∈ m1.lsps ∧ m1.lspsPerFile = m.lspsPerFile.insert b.id lsp ∧
          m1.calls = m.calls ++ (cs ++ [LSPCall.openFile lsp b.id]))) := by
  unfold manageBuffer
  simp only [hw]
  cases hf : m.forLanguage (suffix b.filename) with
  | some lsp =>
    have hmem : lsp ∈ m.lsps := List.mem_of_find?_eq_some hf
    by_cases hc : m.lspsPerFile.contains b.id = true
    · exact ⟨true, { m with calls := m.calls ++ [LSPCall.refreshFile lsp b.id] }, [],
        by simp [hc], rfl, rfl, rfl, hw, by simp,
        fun h => by rw [h] at hc; exact absurd hc (by decide)⟩
    · exact ⟨true, { m with lspsPerFile := m.lspsPerFile.insert b.id lsp,
                            calls := m.calls ++ [LSPCall.openFile lsp b.id] }, [],
        by simp [hc], rfl, rfl, rfl, hw, by simp,
        fun _ => Or.inr ⟨rfl, lsp, hmem, rfl, by simp⟩⟩
  | none =>
    obtain ⟨o, m1, cs, hs, h1, h2, h3, h4, h5, h6, h7, h8⟩ :=
      start_full m w hw ok b (suffix b.filename)
    cases o with
    | none =>
      exact ⟨false, m1, cs, by simp [hs], h3, h4, h5, h6, h2, fun _ => Or.inl ⟨rfl, h7, h1⟩⟩
    | some lsp =>
      by_cases hc : m.lspsPerFile.contains b.id = true
      · exact ⟨true, { m1 with calls := m1.calls ++ [LSPCall.refreshFile lsp b.id] }, cs,
          by simp [hs, hc], h3, h4, h5, h6, h2,
          fun h => by rw [h] at hc; exact absurd hc (by decide)⟩
      · exact ⟨true, { m1 with lspsPerFile := m1.lspsPerFile.insert b.id lsp,
                               calls := m1.calls ++ [LSPCall.openFile lsp b.id] }, cs,
          by simp [hs, hc], h3, h4, h5, h6, h2,
          fun _ => Or.inr ⟨rfl, lsp, h8 lsp rfl, by rw [h7], by simp [h1]⟩⟩

theorem window_reloadPrepared (m : LSPManager) : m.reloadPrepared.window = m.window := rfl

theorem contains_reloadPrepared (m : LSPManager) (id : String) :
    m.reloadPrepared.lspsPerFile.contains id = false := rfl

theorem calls_reloadPrepared (m : LSPManager) :
    ∃ ds, m.reloadPrepared.calls = m.calls ++ ds ∧ ∀ c ∈ ds, c.isFileCall = false := by
  refine ⟨(reloadLoop m.lsps.length 0 m.lsps []).2.map LSPCall.destroy, rfl, ?_⟩
  intro c hc
  obtain ⟨x, _, hx⟩ := List.mem_map.mp hc
  subst hx
  rfl

/-- A `manageBuffer` call on a buffer whose id is not mapped and whose extension has a client
that `forLanguage` finds: the id is mapped to that client, which is sent `openFile`. -/
theorem manageBuffer_of_forLanguage_of_not_contains {m : LSPManager} {w : Window} {b : Buffer}
    {lsp : LSP} (ok : Bool) (hw : m.window = some w)
    (hf : m.forLanguage (suffix b.filename) = some lsp)
    (hc : m.lspsPerFile.contains b.id = false) :
    m.manageBuffer ok b =
      some (true, { m with lspsPerFile := m.lspsPerFile.insert b.id lsp,
                           calls := m.calls ++ [LSPCall.openFile lsp b.id] }) := by
  simp [manageBuffer, hw, hf, hc]

/-- C13: on every manager with a window and at least two running clients, when the second
client's tag is the one looked up for the buffer's extension, `reload(buffer)` returns and
`getLSP(buffer id)` is afterwards that second client, one that was running before the reload:
the deletion loop skips it, `forLanguage` finds it and no fresh client is started. -/
theorem reload_reuses_old_client (m : LSPManager) (w : Window) (hw : m.window = some w)
    (a b : LSP) (rest : List LSP) (hl : m.lsps = a :: b :: rest) (ok : Bool)
    (buffer : Buffer)
    (htag : b.getLanguage =
      if suffix buffer.filename = "h" then "cpp" else suffix buffer.filename) :
    ∃ m1, m.reload ok buffer = some m1 ∧ b ∈ m.lsps ∧ m1.getLSP buffer.id = some b ∧
      m1.calls = m.reloadPrepared.calls ++ [LSPCall.openFile b buffer.id] := by
  have hfirst : reloadLoop (a :: b :: rest).length 0 (a :: b :: rest) [] =
      reloadLoop (rest.length + 1) 1 (b :: rest) [a] := by
    simp [reloadLoop, takeAt]
  obtain ⟨t1, ht1⟩ := reloadLoop_cons_of_pos (rest.length + 1) 1 b rest [a] (le_refl 1)
  have hlsps : m.reloadPrepared.lsps = b :: t1 := by
    show (reloadLoop m.lsps.length 0 m.lsps []).1 = b :: t1
    rw [hl, hfirst, ht1]
  have hf : m.reloadPrepared.forLanguage (suffix buffer.filename) = some b := by
    unfold forLanguage
    rw [hlsps]
    exact List.find?_cons_of_pos _ (by simp [htag])
  have h1 := manageBuffer_of_forLanguage_of_not_contains (m := m.reloadPrepared) ok hw hf
    (contains_reloadPrepared m buffer.id)
  refine ⟨_, by rw [reload_eq_manageBuffer, h1]; rfl, by simp [hl], ?_, rfl⟩
  rw [getLSP_eq_find]
  exact QMap.find_insert_self _ _ _

/-- C13 at a sample input: the gopls and clangd clients are running, the C++ buffer is
reloaded, and its client is the clangd client from before the reload. -/
theorem reload_reuses_old_client_witness :
    sampleTwoClients.lsps = [LSP.generic 0 "/src" "go" "gopls" [] [], LSP.clangd 1 "/src"] ∧
      ∃ m1, sampleTwoClients.reload true sampleCppBuffer = some m1 ∧
        LSP.clangd 1 "/src" ∈ sampleTwoClients.lsps ∧
        m1.getLSP sampleCppBuffer.id = some (LSP.clangd 1 "/src") ∧
        m1.calls = sampleTwoClients.reloadPrepared.calls ++
          [LSPCall.openFile (LSP.clangd 1 "/src") sampleCppBuffer.id] :=
  ⟨by decide,
    reload_reuses_old_client sampleTwoClients sampleWindow (by decide)
      (LSP.generic 0 "/src" "go" "gopls" [] []) (LSP.clangd 1 "/src") [] (by decide) true
      sampleCppBuffer (by decide)⟩

/-! ## Lookup and start of clients -/

/-- C16: `forLanguage` returns the first running client whose tag is the requested one ("h"
read as "cpp"): the clients before it in the list have other tags; it returns none exactly
when no running client has that tag; its result depends on the client list only, and the
lookup has no effect on the manager (it has no resulting state and makes no call). -/
theorem forLanguage_lookup (m : LSPManager) (language : String) :
    (∀ lsp, m.forLanguage language = some lsp ↔
      lsp.getLanguage = lookupTag language ∧
        ∃ before after, m.lsps = before ++ lsp :: after ∧
          ∀ x ∈ before, x.getLanguage ≠ lookupTag language) ∧
    (m.forLanguage language = none ↔ ∀ x ∈ m.lsps, x.getLanguage ≠ lookupTag language) ∧
    (∀ m2 : LSPManager, m2.lsps = m.lsps → m2.forLanguage language = m.forLanguage language) := by
  refine ⟨?_, ?_, ?_⟩
  · intro lsp
    unfold forLanguage lookupTag
    simp only [List.find?_eq_some, decide_eq_true_eq, Bool.not_eq_true', decide_eq_false_iff_not]
  · unfold forLanguage lookupTag
    simp only [List.find?_eq_none, decide_eq_true_eq]
  · intro m2 h
    unfold forLanguage
    rw [h]

/-- C16 at a sample input: the header extension looked up on the manager that runs the gopls
and clangd clients. -/
theorem forLanguage_lookup_witness :
    (∀ lsp, sampleTwoClients.forLanguage "h" = some lsp ↔
      lsp.getLanguage = lookupTag "h" ∧
        ∃ before after, sampleTwoClients.lsps = before ++ lsp :: after ∧
          ∀ x ∈ before, x.getLanguage ≠ lookupTag "h") ∧
    (sampleTwoClients.forLanguage "h" = none ↔
      ∀ x ∈ sampleTwoClients.lsps, x.getLanguage ≠ lookupTag "h") ∧
    (∀ m2 : LSPManager, m2.lsps = sampleTwoClients.lsps →
      m2.forLanguage "h" = sampleTwoClients.forLanguage "h") :=
  forLanguage_lookup sampleTwoClients "h"

/-- A launch appends the new client to the list when the process starts and leaves the list
alone when it does not. -/
theorem lsps_launch (m : LSPManager) (ok : Bool) (b : Buffer) (mk : Nat → LSP) :
    (m.launch ok b mk).2.lsps = if ok = true then m.lsps ++ [mk m.nextAddr] else m.lsps := by
  cases ok <;> simp [launch]

/-- A tag outside the supported ones: `start` returns no client and changes nothing. -/
theorem start_unsupported (m : LSPManager) (ok : Bool) (b : Buffer) (language : String)
    (h : language ∉ supportedLanguages) : m.start ok b language = some (none, m) := by
  simp only [supportedLanguages, List.mem_cons, List.mem_singleton, List.not_mem_nil,
    or_false, not_or] at h
  obtain ⟨h1, h2, h3, h4, h5, h6⟩ := h
  simp [start, h1, h2, h3, h4, h5, h6]

/-- C17: for a language tag outside {go, cpp, h, rb, ruby, zig}, `start` returns no client
and leaves the whole manager, its client list and its record of calls included, as it was
(nothing is constructed or started); and on a manager with a window whose running clients
carry the tags `start` gives (go, cpp, ruby, zig), `manageBuffer` on a buffer with such an
extension returns false and leaves the whole manager as it was: no `openFile`, no
`refreshFile`, the buffer-to-client map unchanged. -/
theorem unsupported_language_unmanaged (m : LSPManager) (ok : Bool) (b : Buffer)
    (language : String) (hlang : language ∉ supportedLanguages) :
    m.start ok b language = some (none, m) ∧
      (∀ w, m.window = some w → suffix b.filename = language →
        (∀ x ∈ m.lsps, x.getLanguage ∈ startedTags) →
        m.manageBuffer ok b = some (false, m)) := by
  refine ⟨start_unsupported m ok b language hlang, ?_⟩
  intro w hw hs htags
  subst hs
  have hf : m.forLanguage (suffix b.filename) = none := by
    unfold forLanguage
    rw [List.find?_eq_none]
    intro x hx
    have h1 := htags x hx
    simp only [decide_eq_true_eq]
    intro h2
    have h3 : (if suffix b.filename = "h" then "cpp" else suffix b.filename) ∈ startedTags := by
      rw [← h2]; exact h1
    simp only [supportedLanguages, List.mem_cons, List.mem_singleton, List.not_mem_nil,
      or_false, not_or] at hlang
    obtain ⟨g1, g2, g3, g4, g5, g6⟩ := hlang
    simp only [if_neg g3, startedTags, List.mem_cons, List.mem_singleton, List.not_mem_nil,
      or_false] at h3
    rcases h3 with h3 | h3 | h3 | h3
    · exact g1 h3
    · exact g2 h3
    · exact g5 h3
    · exact g6 h3
  simp [manageBuffer, hw, hf, start_unsupported m ok b _ hlang]

/-- C17 at a sample input: a text file on the manager that runs the gopls client. -/
theorem unsupported_language_unmanaged_witness :
    "txt" ∉ supportedLanguages ∧
      sampleManaged.start true { id := "/src/notes.txt", filename := "/src/notes.txt" } "txt" =
        some (none, sampleManaged) ∧
      (∀ w, sampleManaged.window = some w →
        suffix (Buffer.mk "/src/notes.txt" "/src/notes.txt").filename = "txt" →
        (∀ x ∈ sampleManaged.lsps, x.getLanguage ∈ startedTags) →
        sampleManaged.manageBuffer true { id := "/src/notes.txt", filename := "/src/notes.txt" } =
          some (false, sampleManaged)) :=
  ⟨by decide,
    unsupported_language_unmanaged sampleManaged true
      { id := "/src/notes.txt", filename := "/src/notes.txt" } "txt" (by decide)⟩

/-- C18: on a manager with a window and for every supported tag: when the process fails to
start, `start` returns no client, the client it constructed is deleted without having been
initialized, and the client list is what it was; when the process starts, `start` returns the
new client, which has been initialized with the buffer, and the client list is the previous
list followed by that client. -/
theorem start_atomic (m : LSPManager) (w : Window) (hw : m.window = some w) (b : Buffer)
    (language : String) (hs : language ∈ supportedLanguages) :
    (∃ lsp m1, m.start false b language = some (none, m1) ∧ m1.lsps = m.lsps ∧
      m1.calls = m.calls ++ [LSPCall.create lsp, LSPCall.start lsp false,
        LSPCall.destroy lsp]) ∧
    (∃ lsp m1, m.start true b language = some (some lsp, m1) ∧ m1.lsps = m.lsps ++ [lsp] ∧
      m1.calls = m.calls ++ [LSPCall.create lsp, LSPCall.start lsp true,
        LSPCall.init lsp b.id]) := by
  have key : ∀ mk : Nat → LSP,
      (∃ lsp m1, some (m.launch false b mk) = some (none, m1) ∧ m1.lsps = m.lsps ∧
        m1.calls = m.calls ++ [LSPCall.create lsp, LSPCall.start lsp false,
          LSPCall.destroy lsp]) ∧
      (∃ lsp m1, some (m.launch true b mk) = some (some lsp, m1) ∧
        m1.lsps = m.lsps ++ [lsp] ∧
        m1.calls = m.calls ++ [LSPCall.create lsp, LSPCall.start lsp true,
          LSPCall.init lsp b.id]) := by
    intro mk
    exact ⟨⟨mk m.nextAddr, (m.launch false b mk).2, rfl, rfl, by simp [launch]⟩,
      ⟨mk m.nextAddr, (m.launch true b mk).2, rfl, rfl, by simp [launch]⟩⟩
  simp only [supportedLanguages, List.mem_cons, List.mem_singleton, List.not_mem_nil,
    or_false] at hs
  rcases hs with hs | hs | hs | hs | hs | hs <;> subst hs <;>
    simp only [start, hw] <;> exact key _

/-- C18 at a sample input: `start` for the tag "zig" on a fresh manager. -/
theorem start_atomic_witness :
    sampleManager.window = some sampleWindow ∧ "zig" ∈ supportedLanguages ∧
      (∃ lsp m1, sampleManager.start false sampleBuffer "zig" = some (none, m1) ∧
        m1.lsps = sampleManager.lsps ∧
        m1.calls = sampleManager.calls ++ [LSPCall.create lsp, LSPCall.start lsp false,
          LSPCall.destroy lsp]) ∧
      (∃ lsp m1, sampleManager.start true sampleBuffer "zig" = some (some lsp, m1) ∧
        m1.lsps = sampleManager.lsps ++ [lsp] ∧
        m1.calls = sampleManager.calls ++ [LSPCall.create lsp, LSPCall.start lsp true,
          LSPCall.init lsp sampleBuffer.id]) :=
  ⟨rfl, by decide, start_atomic sampleManager sampleWindow rfl sampleBuffer "zig" (by decide)⟩

/-- C19: when `manageBuffer` returns false because no client runs for a supported extension
and the server process fails to start, the window of the manager is what it was before the
call: the status bar has received no call, so no message has been set. `start` deletes the
client and returns `nullptr` at the place its comment marks for a warning, and `manageBuffer`
returns false without reporting. -/
theorem manageBuffer_start_failure_not_reported (m : LSPManager) (w : Window)
    (hw : m.window = some w) (b : Buffer) (hs : suffix b.filename ∈ supportedLanguages)
    (hf : m.forLanguage (suffix b.filename) = none) :
    ∃ m1, m.manageBuffer false b = some (false, m1) ∧ m1.window = some w ∧
      ∀ w1, m1.window = some w1 →
        w1.statusBar.calls = w.statusBar.calls ∧ w1.statusBar.message = w.statusBar.message := by
  obtain ⟨⟨lsp, m1, h1, _, _⟩, _⟩ := start_atomic m w hw b (suffix b.filename) hs
  obtain ⟨o, m2, cs, h2, _, _, _, _, _, h7, _, _⟩ :=
    start_full m w hw false b (suffix b.filename)
  rw [h1] at h2
  simp only [Option.some.injEq, Prod.mk.injEq] at h2
  obtain ⟨_, h3⟩ := h2
  subst h3
  refine ⟨m1, by simp [manageBuffer, hw, hf, h1], h7, ?_⟩
  intro w1 hw1
  rw [h7] at hw1
  simp only [Option.some.injEq] at hw1
  subst hw1
  exact ⟨rfl, rfl⟩

/-- C19 at a sample input: a Go buffer on a fresh manager, gopls failing to start; the status
bar has received no call at all. -/
theorem manageBuffer_start_failure_not_reported_witness :
    sampleManager.window = some sampleWindow ∧
      suffix sampleBuffer.filename ∈ supportedLanguages ∧
      sampleManager.forLanguage (suffix sampleBuffer.filename) = none ∧
      sampleWindow.statusBar.calls = [] ∧
      ∃ m1, sampleManager.manageBuffer false sampleBuffer = some (false, m1) ∧
        m1.window = some sampleWindow ∧
        ∀ w1, m1.window = some w1 →
          w1.statusBar.calls = sampleWindow.statusBar.calls ∧
            w1.statusBar.message = sampleWindow.statusBar.message :=
  ⟨rfl, by decide, by decide, rfl,
    manageBuffer_start_failure_not_reported sampleManager sampleWindow rfl sampleBuffer
      (by decide) (by decide)⟩

/-! ## The tags of the running clients -/

/-- Every client `start` adds to the list carries one of the tags go, cpp, ruby, zig. -/
theorem start_tags {m m1 : LSPManager} {ok : Bool} {b : Buffer} {language : String}
    {o : Option LSP} (h : m.start ok b language = some (o, m1))
    (htags : ∀ x ∈ m.lsps, x.getLanguage ∈ startedTags) :
    ∀ x ∈ m1.lsps, x.getLanguage ∈ startedTags := by
  have key : ∀ mk : Nat → LSP, (mk m.nextAddr).getLanguage ∈ startedTags →
      some (m.launch ok b mk) = some (o, m1) → ∀ x ∈ m1.lsps, x.getLanguage ∈ startedTags := by
    intro mk hmk heq x hx
    simp only [Option.some.injEq] at heq
    have h2 : m1 = (m.launch ok b mk).2 := by rw [heq]
    rw [h2, lsps_launch] at hx
    split at hx
    · rcases List.mem_append.mp hx with hx | hx
      · exact htags x hx
      · simp only [List.mem_singleton] at hx
        rw [hx]; exact hmk
    · exact htags x hx
  unfold start at h
  cases hw : m.window with
  | none =>
    split_ifs at h <;> simp [hw] at h
    obtain ⟨_, h1⟩ := h
    subst h1
    exact htags
  | some w =>
    simp only [hw] at h
    split_ifs at h
    · exact key _ (by simp [LSP.getLanguage, startedTags]) h
    · exact key _ (by simp [LSP.getLanguage, startedTags]) h
    · exact key _ (by simp [LSP.getLanguage, startedTags]) h
    · exact key _ (by simp [LSP.getLanguage, startedTags]) h
    · simp only [Option.some.injEq, Prod.mk.injEq] at h
      obtain ⟨_, h1⟩ := h
      subst h1
      exact htags

/-- The tags go, cpp, ruby, zig are all that `manageBuffer` leaves in the client list. -/
theorem manageBuffer_tags {m m1 : LSPManager} {ok r : Bool} {b : Buffer}
    (h : m.manageBuffer ok b = some (r, m1))
    (htags : ∀ x ∈ m.lsps, x.getLanguage ∈ startedTags) :
    ∀ x ∈ m1.lsps, x.getLanguage ∈ startedTags := by
  unfold manageBuffer at h
  cases hw : m.window with
  | none => simp [hw] at h
  | some w =>
    simp only [hw] at h
    cases hf : m.forLanguage (suffix b.filename) with
    | some lsp =>
      simp only [hf] at h
      split_ifs at h <;> simp only [Option.some.injEq, Prod.mk.injEq] at h <;>
        (obtain ⟨_, h1⟩ := h; subst h1; exact htags)
    | none =>
      simp only [hf] at h
      cases hs : m.start ok b (suffix b.filename) with
      | none => simp [hs] at h
      | some p =>
        obtain ⟨o, m0⟩ := p
        have h0 := start_tags hs htags
        cases o with
        | none =>
          simp only [hs, Option.some.injEq, Prod.mk.injEq] at h
          obtain ⟨_, h1⟩ := h
          subst h1
          exact h0
        | some lsp =>
          simp only [hs] at h
          split_ifs at h <;> simp only [Option.some.injEq, Prod.mk.injEq] at h <;>
            (obtain ⟨_, h1⟩ := h; subst h1; exact h0)

/-- The loop of `reload` only removes clients. -/
theorem reloadLoop_subset (fuel : Nat) :
    ∀ (i : Nat) (lsps deleted : List LSP), ∀ x ∈ (reloadLoop fuel i lsps deleted).1, x ∈ lsps := by
  induction fuel with
  | zero => intro i lsps deleted x hx; exact hx
  | succ n ih =>
    intro i lsps deleted x hx
    by_cases hi : i < lsps.length
    · obtain ⟨a, ha⟩ := takeAt_of_lt lsps i hi
      rw [reloadLoop, if_pos hi, ha] at hx
      exact List.mem_of_mem_eraseIdx (ih _ _ _ x hx)
    · rw [reloadLoop, if_neg hi] at hx
      exact hx

/-- The tags go, cpp, ruby, zig are all that `reload` leaves in the client list. -/
theorem reload_tags {m m1 : LSPManager} {ok : Bool} {b : Buffer}
    (h : m.reload ok b = some m1) (htags : ∀ x ∈ m.lsps, x.getLanguage ∈ startedTags) :
    ∀ x ∈ m1.lsps, x.getLanguage ∈ startedTags := by
  rw [reload_eq_manageBuffer] at h
  cases hm : m.reloadPrepared.manageBuffer ok b with
  | none => simp [hm] at h
  | some p =>
    obtain ⟨r, m2⟩ := p
    simp only [hm, Option.map_some', Option.some.injEq] at h
    subst h
    exact manageBuffer_tags hm (fun x hx => htags x (reloadLoop_subset _ _ _ _ x hx))

/-- A freshly constructed manager runs no client. -/
theorem new_tags (window : Option Window) :
    ∀ x ∈ (LSPManager.new window).lsps, x.getLanguage ∈ startedTags := by
  intro x hx
  simp [LSPManager.new] at hx

end LSPManager

/-! ## Sizes of maps -/

namespace QMap

variable {κ α : Type} [DecidableEq κ] [QMapKey κ]

theorem insertEntry_ne_nil (k : κ) (v : α) (es : List (κ × α)) : insertEntry k v es ≠ [] := by
  cases es with
  | nil => simp [insertEntry]
  | cons e es =>
    simp only [insertEntry]
    split_ifs <;> simp

theorem size_insert_ne_zero (m : QMap κ α) (k : κ) (v : α) : (m.insert k v).size ≠ 0 := by
  simp only [size, insert, ne_eq, List.length_eq_zero]
  exact insertEntry_ne_nil k v m.entries

omit [QMapKey κ] in
theorem size_ne_zero_of_find {m : QMap κ α} {k : κ} {v : α} (h : m.find k = some v) :
    m.size ≠ 0 := by
  obtain ⟨es⟩ := m
  cases es with
  | nil => simp [find] at h
  | cons e es => simp [size]

omit [QMapKey κ] in
theorem size_remove_le (m : QMap κ α) (k : κ) : (m.remove k).size ≤ m.size := by
  simp only [size, remove]
  exact List.length_filter_le _ _

omit [QMapKey κ] in
theorem size_foldl_remove_le (ks : List κ) (m : QMap κ α) :
    (ks.foldl (fun ea x => ea.remove x) m).size ≤ m.size := by
  induction ks generalizing m with
  | nil => exact le_refl _
  | cons x xs ih =>
    rw [List.foldl_cons]
    exact le_trans (ih _) (size_remove_le m x)

end QMap

/-! ## The activity indicator -/

namespace LSPManager

/-- One call keeps the indicator in step with the pending set. -/
theorem indicator_step (timeoutS : Int) (m : LSPManager) (w : Window) (hw : m.window = some w)
    (hinv : w.statusBar.lspRunning = true ↔ m.executedActions.size ≠ 0) (c : ManagerCall) :
    ∃ m1 w1, m.runManagerCall timeoutS c = some m1 ∧ m1.window = some w1 ∧
      (w1.statusBar.lspRunning = true ↔ m1.executedActions.size ≠ 0) := by
  cases c with
  | set clock reqId action buffer =>
    refine ⟨_, { w with statusBar := w.statusBar.setLspRunning true }, rfl, ?_, ?_⟩
    · simp [setExecutedAction, setLspRunningIfWindow, hw]
    · rw [executedActions_setExecutedAction]
      simp [StatusBar.setLspRunning, QMap.size_insert_ne_zero]
  | get reqId =>
    cases hf : m.executedActions.find reqId with
    | none =>
      have hc : m.executedActions.contains reqId = false := by simp [QMap.contains, hf]
      exact ⟨m, w, by simp [runManagerCall, getExecutedAction_of_not_contains m reqId hc],
        hw, hinv⟩
    | some a =>
      have hon : w.statusBar.lspRunning = true := hinv.mpr (QMap.size_ne_zero_of_find hf)
      by_cases h0 : (m.executedActions.remove reqId).size = 0
      · refine ⟨{ m with executedActions := m.executedActions.remove reqId,
                         window := some { w with statusBar := w.statusBar.setLspRunning false } },
          { w with statusBar := w.statusBar.setLspRunning false }, ?_, rfl, ?_⟩
        · simp [runManagerCall, getExecutedAction, QMap.contains, hf, QMap.take, h0, hw]
        · simp [StatusBar.setLspRunning, h0]
      · refine ⟨{ m with executedActions := m.executedActions.remove reqId }, w, ?_, hw, ?_⟩
        · simp [runManagerCall, getExecutedAction, QMap.contains, hf, QMap.take, h0]
        · simp [hon, h0]
  | sweep clock =>
    by_cases h0 : (m.timeoutActions timeoutS clock).executedActions.size = 0
    · refine ⟨_, { w with statusBar := w.statusBar.setLspRunning false }, rfl, ?_, ?_⟩
      · have h1 := h0
        rw [executedActions_timeoutActions] at h1
        simp [timeoutActions, h1, setLspRunningIfWindow, hw]
      · simp [StatusBar.setLspRunning, h0]
    · refine ⟨_, w, rfl, ?_, ?_⟩
      · have h1 := h0
        rw [executedActions_timeoutActions] at h1
        simp [timeoutActions, h1, hw]
      · have h1 : m.executedActions.size ≠ 0 := by
          have h2 := QMap.size_foldl_remove_le
            (m.executedActions.keys.filter
              (fun k => expired timeoutS clock (m.executedActions.value k default)))
            m.executedActions
          rw [← executedActions_timeoutActions] at h2
          omega
        simp [hinv.mpr h1, h0]
  | reload ok buffer =>
    obtain ⟨r, m1, cs, h1, h2, _, _, h5, _, _⟩ :=
      manageBuffer_full m.reloadPrepared w hw ok buffer
    refine ⟨m1, w, ?_, h5, ?_⟩
    · show m.reload ok buffer = some m1
      rw [reload_eq_manageBuffer, h1]; rfl
    · rw [h2]; exact hinv

/-- C21: on a manager with a window whose indicator is on exactly when the pending set is
non-empty (in particular one with an empty pending set and the indicator off), every sequence
of `setExecutedAction`, `getExecutedAction`, `timeoutActions` and `reload` calls completes, and
after it the status bar's LSP-running flag is on if and only if the pending set is non-empty. -/
theorem indicator_invariant (timeoutS : Int) (calls : List ManagerCall) :
    ∀ (m : LSPManager) (w : Window), m.window = some w →
      (w.statusBar.lspRunning = true ↔ m.executedActions.size ≠ 0) →
      ∃ m1 w1, m.runManagerCalls timeoutS calls = some m1 ∧ m1.window = some w1 ∧
        (w1.statusBar.lspRunning = true ↔ m1.executedActions.size ≠ 0) := by
  induction calls with
  | nil => intro m w hw hinv; exact ⟨m, w, rfl, hw, hinv⟩
  | cons c cs ih =>
    intro m w hw hinv
    obtain ⟨m1, w1, h1, hw1, hinv1⟩ := indicator_step timeoutS m w hw hinv c
    obtain ⟨m2, w2, h2, hw2, hinv2⟩ := ih m1 w1 hw1 hinv1
    exact ⟨m2, w2, by simp [runManagerCalls, h1, h2], hw2, hinv2⟩

/-- C21 at a sample input: a fresh manager, indicator off; two requests recorded, one answered,
a reload, a sweep long after, and a late answer. -/
theorem indicator_invariant_witness :
    sampleManager.window = some sampleWindow ∧
      (sampleWindow.statusBar.lspRunning = true ↔ sampleManager.executedActions.size ≠ 0) ∧
      ∃ m1 w1, sampleManager.runManagerCalls 5
          [ManagerCall.set 1000 42 LSP_ACTION_HOVER (some sampleBuffer),
           ManagerCall.set 1200 43 LSP_ACTION_DEFINITION (some sampleBuffer),
           ManagerCall.get 42, ManagerCall.reload true sampleBuffer,
           ManagerCall.sweep 60000, ManagerCall.get 43] = some m1 ∧
        m1.window = some w1 ∧
        (w1.statusBar.lspRunning = true ↔ m1.executedActions.size ≠ 0) :=
  ⟨rfl, by decide,
    indicator_invariant 5 _ sampleManager sampleWindow rfl (by decide)⟩

end LSPManager

/-! ## Inserting twice under one request id -/

namespace QMap

variable {α : Type}

theorem absent_of_find_eq_none {m : QMap Int α} {k : Int} (h : m.find k = none) :
    ∀ e ∈ m.entries, e.1 ≠ k := by
  intro e he
  cases hf : m.entries.find? (fun e => decide (e.1 = k)) with
  | none =>
    have := List.find?_eq_none.mp hf e he
    simpa using this
  | some x => simp [find, hf] at h

theorem insertEntry_twice (k : Int) (v1 v2 : α) (es : List (Int × α))
    (habs : ∀ e ∈ es, e.1 ≠ k) :
    insertEntry k v2 (insertEntry k v1 es) = insertEntry k v2 es := by
  induction es with
  | nil => simp [insertEntry, QMapKey.lt]
  | cons e es ih =>
    have he : e.1 ≠ k := habs e (List.mem_cons_self e es)
    have hes : ∀ x ∈ es, x.1 ≠ k := fun x hx => habs x (List.mem_cons_of_mem e hx)
    by_cases hlt : k < e.1
    · simp [insertEntry, hlt, QMapKey.lt]
    · simp [insertEntry, hlt, he, ih hes, QMapKey.lt]

theorem length_insertEntry_of_absent (k : Int) (v : α) (es : List (Int × α))
    (habs : ∀ e ∈ es, e.1 ≠ k) : (insertEntry k v es).length = es.length + 1 := by
  induction es with
  | nil => simp [insertEntry]
  | cons e es ih =>
    have he : e.1 ≠ k := habs e (List.mem_cons_self e es)
    have hes : ∀ x ∈ es, x.1 ≠ k := fun x hx => habs x (List.mem_cons_of_mem e hx)
    by_cases hlt : k < e.1
    · simp [insertEntry, hlt, QMapKey.lt]
    · simp [insertEntry, hlt, he, ih hes, QMapKey.lt]

theorem filter_insertEntry_of_absent (k : Int) (v : α) (es : List (Int × α))
    (habs : ∀ e ∈ es, e.1 ≠ k) :
    (insertEntry k v es).filter (fun e => decide (e.1 = k)) = [(k, v)] := by
  have hnone : es.filter (fun e => decide (e.1 = k)) = [] := by
    rw [List.filter_eq_nil_iff]
    intro e he
    simpa using habs e he
  induction es with
  | nil => simp [insertEntry]
  | cons e es ih =>
    have he : e.1 ≠ k := habs e (List.mem_cons_self e es)
    have hes : ∀ x ∈ es, x.1 ≠ k := fun x hx => habs x (List.mem_cons_of_mem e hx)
    have hnone1 : es.filter (fun e => decide (e.1 = k)) = [] := by
      rw [List.filter_eq_nil_iff]
      intro x hx
      simpa using hes x hx
    by_cases hlt : k < e.1
    · simp [insertEntry, hlt, List.filter_cons, he, hnone1, QMapKey.lt]
    · simp [insertEntry, hlt, he, List.filter_cons, ih hes hnone1, QMapKey.lt]

end QMap

namespace LSPManager

/-- C23: when an id that is not pending is recorded twice in a row, the pending set grows by
one with the first recording and not at all with the second; it is then the pending set the
second recording alone would have produced, its only entry for the id being the second
recording; `getExecutedAction(id)` returns the second kind and buffer and removes the id, after
which the id yields the unknown sentinel: the first recording is gone. -/
theorem setExecutedAction_collision (m : LSPManager) (hw : m.window.isSome = true)
    (reqId : Int) (hfresh : m.executedActions.contains reqId = false)
    (c1 : Nat) (k1 : LSPActionKind) (b1 : Option Buffer)
    (c2 : Nat) (k2 : LSPActionKind) (b2 : Option Buffer) :
    (m.setExecutedAction c1 reqId k1 b1).executedActions.size = m.executedActions.size + 1 ∧
    ((m.setExecutedAction c1 reqId k1 b1).setExecutedAction c2 reqId k2 b2).executedActions.size
      = m.executedActions.size + 1 ∧
    ((m.setExecutedAction c1 reqId k1 b1).setExecutedAction c2 reqId k2 b2).executedActions
      = (m.setExecutedAction c2 reqId k2 b2).executedActions ∧
    ((m.setExecutedAction c1 reqId k1 b1).setExecutedAction c2 reqId k2
        b2).executedActions.entries.filter (fun e => decide (e.1 = reqId)) =
      [(reqId, { requestId := reqId, action := k2, buffer := b2,
                 creationTime := QTime.currentTime c2 })] ∧
    ∃ m3, ((m.setExecutedAction c1 reqId k1 b1).setExecutedAction c2 reqId k2
        b2).getExecutedAction reqId =
        some ({ requestId := reqId, action := k2, buffer := b2,
                creationTime := QTime.currentTime c2 }, m3) ∧
      m3.executedActions.contains reqId = false ∧
      m3.getExecutedAction reqId = some (unknownAction, m3) := by
  have habs : ∀ e ∈ m.executedActions.entries, e.1 ≠ reqId :=
    QMap.absent_of_find_eq_none (by simpa [QMap.contains] using hfresh)
  have htwice : ((m.setExecutedAction c1 reqId k1 b1).setExecutedAction c2 reqId k2
      b2).executedActions = (m.setExecutedAction c2 reqId k2 b2).executedActions := by
    simp only [executedActions_setExecutedAction, QMap.insert]
    rw [QMap.insertEntry_twice _ _ _ _ habs]
  have hsize : ∀ (c : Nat) (k : LSPActionKind) (b : Option Buffer),
      (m.setExecutedAction c reqId k b).executedActions.size = m.executedActions.size + 1 := by
    intro c k b
    simp only [executedActions_setExecutedAction, QMap.insert, QMap.size]
    exact QMap.length_insertEntry_of_absent _ _ _ habs
  have hw2 : ((m.setExecutedAction c1 reqId k1 b1).setExecutedAction c2 reqId k2
      b2).window.isSome = true := by
    rw [window_isSome_setExecutedAction, window_isSome_setExecutedAction]; exact hw
  obtain ⟨m3, h3, h4, _⟩ := getExecutedAction_of_find _ reqId _ hw2
    (find_setExecutedAction (m.setExecutedAction c1 reqId k1 b1) c2 reqId k2 b2)
  have h5 : m3.executedActions.contains reqId = false := by
    simp [QMap.contains, h4, QMap.find_remove_self]
  refine ⟨hsize c1 k1 b1, by rw [htwice]; exact hsize c2 k2 b2, htwice, ?_,
    m3, h3, h5, getExecutedAction_of_not_contains m3 reqId h5⟩
  rw [htwice]
  simp only [executedActions_setExecutedAction, QMap.insert]
  exact QMap.filter_insertEntry_of_absent _ _ _ habs

/-- C23 at a sample input: id 42 recorded as a hover request, then again as a definition
request, while id 7 is pending. -/
theorem setExecutedAction_collision_witness :
    (sampleManager.setExecutedAction 500 7 LSP_ACTION_COMPLETION none).window.isSome = true ∧
    (sampleManager.setExecutedAction 500 7 LSP_ACTION_COMPLETION none).executedActions.contains
      42 = false ∧
    (((sampleManager.setExecutedAction 500 7 LSP_ACTION_COMPLETION none).setExecutedAction 1000
        42 LSP_ACTION_HOVER (some sampleBuffer)).executedActions.size =
      (sampleManager.setExecutedAction 500 7 LSP_ACTION_COMPLETION none).executedActions.size
        + 1 ∧
    (((sampleManager.setExecutedAction 500 7 LSP_ACTION_COMPLETION none).setExecutedAction 1000
        42 LSP_ACTION_HOVER (some sampleBuffer)).setExecutedAction 2000 42 LSP_ACTION_DEFINITION
        (some sampleBuffer2)).executedActions.size =
      (sampleManager.setExecutedAction 500 7 LSP_ACTION_COMPLETION none).executedActions.size
        + 1 ∧
    (((sampleManager.setExecutedAction 500 7 LSP_ACTION_COMPLETION none).setExecutedAction 1000
        42 LSP_ACTION_HOVER (some sampleBuffer)).setExecutedAction 2000 42 LSP_ACTION_DEFINITION
        (some sampleBuffer2)).executedActions =
      ((sampleManager.setExecutedAction 500 7 LSP_ACTION_COMPLETION none).setExecutedAction 2000
        42 LSP_ACTION_DEFINITION (some sampleBuffer2)).executedActions ∧
    (((sampleManager.setExecutedAction 500 7 LSP_ACTION_COMPLETION none).setExecutedAction 1000
        42 LSP_ACTION_HOVER (some sampleBuffer)).setExecutedAction 2000 42 LSP_ACTION_DEFINITION
        (some sampleBuffer2)).executedActions.entries.filter (fun e => decide (e.1 = 42)) =
      [(42, { requestId := 42, action := LSP_ACTION_DEFINITION, buffer := some sampleBuffer2,
              creationTime := QTime.currentTime 2000 })] ∧
    ∃ m3, (((sampleManager.setExecutedAction 500 7 LSP_ACTION_COMPLETION none).setExecutedAction
        1000 42 LSP_ACTION_HOVER (some sampleBuffer)).setExecutedAction 2000 42
        LSP_ACTION_DEFINITION (some sampleBuffer2)).getExecutedAction 42 =
        some ({ requestId := 42, action := LSP_ACTION_DEFINITION, buffer := some sampleBuffer2,
                creationTime := QTime.currentTime 2000 }, m3) ∧
      m3.executedActions.contains 42 = false ∧
      m3.getExecutedAction 42 = some (unknownAction, m3)) :=
  ⟨by decide, by decide,
    setExecutedAction_collision (sampleManager.setExecutedAction 500 7 LSP_ACTION_COMPLETION none)
      (by decide) 42 (by decide) 1000 LSP_ACTION_HOVER (some sampleBuffer) 2000
      LSP_ACTION_DEFINITION (some sampleBuffer2)⟩

/-! ## The gopls client -/

/-- C25: on a manager with a window, `start` for the tag "go" constructs a generic client with
language "go", executable "gopls", no argument and the overlay `goExtraEnv`, and only then
launches its process (the `create` call, which carries the overlay, precedes the `start`
call); the client is returned when the process starts. The overlay is the single variable
GOFLAGS, set to the project setting "goflags", when project settings exist and contain that
key, and is empty when they do not contain it or do not exist. -/
theorem start_go (m : LSPManager) (w : Window) (hw : m.window = some w) (ok : Bool)
    (b : Buffer) :
    (∃ m1 rest, m.start ok b "go" =
        some (if ok = true then
            some (LSP.generic m.nextAddr w.baseDir "go" "gopls" [] (goExtraEnv w))
          else none, m1) ∧
      m1.calls = m.calls ++
        LSPCall.create (LSP.generic m.nextAddr w.baseDir "go" "gopls" [] (goExtraEnv w)) ::
        LSPCall.start (LSP.generic m.nextAddr w.baseDir "go" "gopls" [] (goExtraEnv w)) ok ::
        rest) ∧
    (∀ s, w.projectSettings = some s → s.contains "goflags" = true →
      goExtraEnv w = [("GOFLAGS", s.value "goflags" "")]) ∧
    (∀ s, w.projectSettings = some s → s.contains "goflags" = false → goExtraEnv w = []) ∧
    (w.projectSettings = none → goExtraEnv w = []) := by
  refine ⟨?_, ?_, ?_, ?_⟩
  · cases ok
    · refine ⟨(m.launch false b
          (fun a => LSP.generic a w.baseDir "go" "gopls" [] (goExtraEnv w))).2,
        [LSPCall.destroy (LSP.generic m.nextAddr w.baseDir "go" "gopls" [] (goExtraEnv w))],
        ?_, ?_⟩
      · simp [start, hw, launch]
      · simp [launch]
    · refine ⟨(m.launch true b
          (fun a => LSP.generic a w.baseDir "go" "gopls" [] (goExtraEnv w))).2,
        [LSPCall.init (LSP.generic m.nextAddr w.baseDir "go" "gopls" [] (goExtraEnv w)) b.id],
        ?_, ?_⟩
      · simp [start, hw, launch]
      · simp [launch]
  · intro s hs hc
    simp [goExtraEnv, hs, hc]
  · intro s hs hc
    simp [goExtraEnv, hs, hc]
  · intro hs
    simp [goExtraEnv, hs]

/-- C25 at a sample input: a window whose project settings set goflags. -/
theorem start_go_witness :
    (LSPManager.new (some sampleGoWindow)).window = some sampleGoWindow ∧
    goExtraEnv sampleGoWindow = [("GOFLAGS", "-tags=e2e")] ∧
    ((∃ m1 rest, (LSPManager.new (some sampleGoWindow)).start true sampleBuffer "go" =
        some (if true = true then
            some (LSP.generic (LSPManager.new (some sampleGoWindow)).nextAddr
              sampleGoWindow.baseDir "go" "gopls" [] (goExtraEnv sampleGoWindow))
          else none, m1) ∧
      m1.calls = (LSPManager.new (some sampleGoWindow)).calls ++
        LSPCall.create (LSP.generic (LSPManager.new (some sampleGoWindow)).nextAddr
          sampleGoWindow.baseDir "go" "gopls" [] (goExtraEnv sampleGoWindow)) ::
        LSPCall.start (LSP.generic (LSPManager.new (some sampleGoWindow)).nextAddr
          sampleGoWindow.baseDir "go" "gopls" [] (goExtraEnv sampleGoWindow)) true ::
        rest) ∧
    (∀ s, sampleGoWindow.projectSettings = some s → s.contains "goflags" = true →
      goExtraEnv sampleGoWindow = [("GOFLAGS", s.value "goflags" "")]) ∧
    (∀ s, sampleGoWindow.projectSettings = some s → s.contains "goflags" = false →
      goExtraEnv sampleGoWindow = []) ∧
    (sampleGoWindow.projectSettings = none → goExtraEnv sampleGoWindow = [])) :=
  ⟨rfl, by decide,
    start_go (LSPManager.new (some sampleGoWindow)) sampleGoWindow rfl true sampleBuffer⟩

/-! ## The sweep timer -/

theorem cleanTimer_setExecutedAction (m : LSPManager) (clock : Nat) (reqId : Int)
    (action : LSPActionKind) (buffer : Option Buffer) :
    (m.setExecutedAction clock reqId action buffer).cleanTimer = m.cleanTimer := by
  simp only [setExecutedAction, setLspRunningIfWindow]
  split <;> rfl

/-- C26: on every manager with a window, `reload` returns with the sweep timer stopped: it
calls `cleanTimer->stop()` and nothing starts the timer again. An action recorded after the
reload is therefore left alone by every timer period, whatever the clock shows: the sweep does
not run. The timer is active after construction and after every `timeoutActions` call. -/
theorem reload_stops_sweep (timeoutS : Int) (m : LSPManager) (w : Window)
    (hw : m.window = some w) (ok : Bool) (b : Buffer) :
    (LSPManager.new (some w)).cleanTimer.active = true ∧
    (∀ clock, (m.timeoutActions timeoutS clock).cleanTimer.active = true) ∧
    ∃ m1, m.reload ok b = some m1 ∧ m1.cleanTimer.active = false ∧
      ∀ (clock : Nat) (reqId : Int) (action : LSPActionKind) (buffer : Option Buffer)
        (later : Nat),
        (m1.setExecutedAction clock reqId action buffer).timerTick timeoutS later =
          m1.setExecutedAction clock reqId action buffer := by
  refine ⟨rfl, ?_, ?_⟩
  · intro clock
    simp only [timeoutActions]
  · obtain ⟨r, m1, cs, h1, _, _, h4, _, _, _⟩ := manageBuffer_full m.reloadPrepared w hw ok b
    have hoff : m1.cleanTimer.active = false := by rw [h4]; rfl
    refine ⟨m1, by rw [reload_eq_manageBuffer, h1]; rfl, hoff, ?_⟩
    intro clock reqId action buffer later
    simp [timerTick, cleanTimer_setExecutedAction, hoff]

/-- C26 at a sample input: a fresh manager is reloaded. -/
theorem reload_stops_sweep_witness :
    sampleManager.window = some sampleWindow ∧
    ((LSPManager.new (some sampleWindow)).cleanTimer.active = true ∧
    (∀ clock, (sampleManager.timeoutActions 5 clock).cleanTimer.active = true) ∧
    ∃ m1, sampleManager.reload true sampleBuffer = some m1 ∧ m1.cleanTimer.active = false ∧
      ∀ (clock : Nat) (reqId : Int) (action : LSPActionKind) (buffer : Option Buffer)
        (later : Nat),
        (m1.setExecutedAction clock reqId action buffer).timerTick 5 later =
          m1.setExecutedAction clock reqId action buffer) :=
  ⟨rfl, reload_stops_sweep 5 sampleManager sampleWindow rfl true sampleBuffer⟩

/-! ## Pending actions without a window -/

/-- C29: on a manager constructed without a window and with nothing pending,
`setExecutedAction` and `timeoutActions` complete and leave the window absent, but
`getExecutedAction` of the id just recorded has no result: having removed the last pending
action it calls `window->getStatusBar()` on the null window, without the null check the other
two operations make. -/
theorem getExecutedAction_without_window (m : LSPManager) (hw : m.window = none)
    (hempty : m.executedActions.size = 0) (timeoutS : Int) (clock : Nat) (reqId : Int)
    (action : LSPActionKind) (buffer : Option Buffer) :
    (m.setExecutedAction clock reqId action buffer).window = none ∧
    (m.timeoutActions timeoutS clock).window = none ∧
    (m.setExecutedAction clock reqId action buffer).getExecutedAction reqId = none := by
  have he : m.executedActions = QMap.empty := (QMap.size_eq_zero_iff _).mp hempty
  refine ⟨?_, ?_, ?_⟩
  · simp [setExecutedAction, setLspRunningIfWindow, hw]
  · simp only [timeoutActions]
    split <;> simp [setLspRunningIfWindow, hw]
  · have hfind := find_setExecutedAction m clock reqId action buffer
    have hrem : ((m.setExecutedAction clock reqId action buffer).executedActions.remove
        reqId).size = 0 := by
      rw [executedActions_setExecutedAction, he]
      simp [QMap.remove, QMap.insert, QMap.empty, QMap.insertEntry, QMap.size]
    have hwin : (m.setExecutedAction clock reqId action buffer).window = none := by
      simp [setExecutedAction, setLspRunningIfWindow, hw]
    simp [getExecutedAction, QMap.contains, hfind, QMap.take, hrem, hwin]

/-- C29 at a sample input: a manager constructed with a null window, request 42 recorded and
then asked for. -/
theorem getExecutedAction_without_window_witness :
    (LSPManager.new none).window = none ∧ (LSPManager.new none).executedActions.size = 0 ∧
    (((LSPManager.new none).setExecutedAction 1000 42 LSP_ACTION_DEFINITION
      (some sampleBuffer)).window = none ∧
    ((LSPManager.new none).timeoutActions 5 1000).window = none ∧
    ((LSPManager.new none).setExecutedAction 1000 42 LSP_ACTION_DEFINITION
      (some sampleBuffer)).getExecutedAction 42 = none) :=
  ⟨rfl, rfl,
    getExecutedAction_without_window (LSPManager.new none) rfl rfl 5 1000 42
      LSP_ACTION_DEFINITION (some sampleBuffer)⟩

/-! ## Mapped clients are running clients -/

/-- What `start` does to the client list and the buffer-to-client map: no client is removed,
the map is untouched, and a client it returns is in the list. -/
theorem start_lsps {m m1 : LSPManager} {ok : Bool} {b : Buffer} {language : String}
    {o : Option LSP} (h : m.start ok b language = some (o, m1)) :
    (∀ x ∈ m.lsps, x ∈ m1.lsps) ∧ m1.lspsPerFile = m.lspsPerFile ∧
      ∀ lsp, o = some lsp → lsp ∈ m1.lsps := by
  have key : ∀ mk : Nat → LSP, some (m.launch ok b mk) = some (o, m1) →
      (∀ x ∈ m.lsps, x ∈ m1.lsps) ∧ m1.lspsPerFile = m.lspsPerFile ∧
        ∀ lsp, o = some lsp → lsp ∈ m1.lsps := by
    intro mk heq
    simp only [Option.some.injEq] at heq
    have h1 : o = (m.launch ok b mk).1 := by rw [heq]
    have h2 : m1 = (m.launch ok b mk).2 := by rw [heq]
    obtain ⟨_, _, _, _, _, _, _, h8, h9⟩ := launch_full m ok b mk
    rw [h1, h2]
    exact ⟨(launch_spec m ok b mk).2.2, h8, h9⟩
  unfold start at h
  cases hw : m.window with
  | none =>
    split_ifs at h <;> simp [hw] at h
    obtain ⟨h1, h2⟩ := h
    subst h1 h2
    exact ⟨fun x hx => hx, rfl, by simp⟩
  | some w =>
    simp only [hw] at h
    split_ifs at h
    · exact key _ h
    · exact key _ h
    · exact key _ h
    · exact key _ h
    · simp only [Option.some.injEq, Prod.mk.injEq] at h
      obtain ⟨h1, h2⟩ := h
      subst h1 h2
      exact ⟨fun x hx => hx, rfl, by simp⟩

/-- What `manageBuffer` does to the client list and the buffer-to-client map: no client is
removed, and the map is untouched or gains the entry of the buffer, for a running client. -/
theorem manageBuffer_map {m m1 : LSPManager} {ok r : Bool} {b : Buffer}
    (h : m.manageBuffer ok b = some (r, m1)) :
    (∀ x ∈ m.lsps, x ∈ m1.lsps) ∧
      (m1.lspsPerFile = m.lspsPerFile ∨
        ∃ lsp, lsp ∈ m1.lsps ∧ m1.lspsPerFile = m.lspsPerFile.insert b.id lsp) := by
  unfold manageBuffer at h
  cases hw : m.window with
  | none => simp [hw] at h
  | some w =>
    simp only [hw] at h
    cases hf : m.forLanguage (suffix b.filename) with
    | some lsp =>
      have hmem : lsp ∈ m.lsps := List.mem_of_find?_eq_some hf
      simp only [hf] at h
      split_ifs at h
      · simp only [Option.some.injEq, Prod.mk.injEq] at h
        obtain ⟨_, h1⟩ := h
        subst h1
        exact ⟨fun x hx => hx, Or.inl rfl⟩
      · simp only [Option.some.injEq, Prod.mk.injEq] at h
        obtain ⟨_, h1⟩ := h
        subst h1
        exact ⟨fun x hx => hx, Or.inr ⟨lsp, hmem, rfl⟩⟩
    | none =>
      simp only [hf] at h
      cases hs : m.start ok b (suffix b.filename) with
      | none => simp [hs] at h
      | some p =>
        obtain ⟨o, m0⟩ := p
        obtain ⟨h0, hmap0, ho⟩ := start_lsps hs
        cases o with
        | none =>
          simp only [hs, Option.some.injEq, Prod.mk.injEq] at h
          obtain ⟨_, h1⟩ := h
          subst h1
          exact ⟨h0, Or.inl hmap0⟩
        | some lsp =>
          simp only [hs] at h
          split_ifs at h
          · simp only [Option.some.injEq, Prod.mk.injEq] at h
            obtain ⟨_, h1⟩ := h
            subst h1
            exact ⟨h0, Or.inl hmap0⟩
          · simp only [Option.some.injEq, Prod.mk.injEq] at h
            obtain ⟨_, h1⟩ := h
            subst h1
            exact ⟨h0, Or.inr ⟨lsp, ho lsp rfl, by rw [hmap0]⟩⟩

/-- `manageBuffer` keeps every mapped client among the running clients. -/
theorem manageBuffer_mapped_running {m m1 : LSPManager} {ok r : Bool} {b : Buffer}
    (h : m.manageBuffer ok b = some (r, m1))
    (hinv : ∀ id lsp, m.lspsPerFile.find id = some lsp → lsp ∈ m.lsps) :
    ∀ id lsp, m1.lspsPerFile.find id = some lsp → lsp ∈ m1.lsps := by
  obtain ⟨hsub, hmap⟩ := manageBuffer_map h
  intro id lsp hfind
  rcases hmap with hmap | ⟨l, hl, hmap⟩
  · rw [hmap] at hfind
    exact hsub lsp (hinv id lsp hfind)
  · rw [hmap] at hfind
    by_cases hid : b.id = id
    · subst hid
      rw [QMap.find_insert_self] at hfind
      simp only [Option.some.injEq] at hfind
      subst hfind
      exact hl
    · rw [QMap.find_insert_of_ne _ _ hid] at hfind
      exact hsub lsp (hinv id lsp hfind)

/-- One `manageBuffer` or `reload` call on a manager with a window returns, keeps the window
and keeps every mapped client among the running clients. -/
theorem runBufferCall_mapped_running (m : LSPManager) (w : Window) (hw : m.window = some w)
    (hinv : ∀ id lsp, m.lspsPerFile.find id = some lsp → lsp ∈ m.lsps) (c : BufferCall) :
    ∃ m1, m.runBufferCall c = some m1 ∧ m1.window = some w ∧
      ∀ id lsp, m1.lspsPerFile.find id = some lsp → lsp ∈ m1.lsps := by
  cases c with
  | manageBuffer ok b =>
    obtain ⟨r, m1, h1, hw1, _⟩ := manageBuffer_of_window m w hw ok b
    exact ⟨m1, by simp [runBufferCall, h1], hw1, manageBuffer_mapped_running h1 hinv⟩
  | reload ok b =>
    obtain ⟨r, m1, h1, hw1, _⟩ := manageBuffer_of_window m.reloadPrepared w hw ok b
    refine ⟨m1, ?_, hw1, manageBuffer_mapped_running h1 ?_⟩
    · show m.reload ok b = some m1
      rw [reload_eq_manageBuffer, h1]; rfl
    · intro id lsp hfind
      have : (QMap.empty : QMap String LSP).find id = some lsp := hfind
      simp [QMap.find, QMap.empty] at this

/-- C27: on a freshly constructed manager with a window, every sequence of `manageBuffer` and
`reload` calls completes, and afterwards every client `getLSP` gives for a buffer id is an
element of the running-client list. -/
theorem mapped_clients_running (w : Window) (calls : List BufferCall) :
    ∃ m1, (LSPManager.new (some w)).runBufferCalls calls = some m1 ∧
      ∀ id lsp, m1.getLSP id = some lsp → lsp ∈ m1.lsps := by
  have step : ∀ (cs : List BufferCall) (m : LSPManager), m.window = some w →
      (∀ id lsp, m.lspsPerFile.find id = some lsp → lsp ∈ m.lsps) →
      ∃ m1, m.runBufferCalls cs = some m1 ∧
        ∀ id lsp, m1.lspsPerFile.find id = some lsp → lsp ∈ m1.lsps := by
    intro cs
    induction cs with
    | nil => intro m _ hinv; exact ⟨m, rfl, hinv⟩
    | cons c cs ih =>
      intro m hw hinv
      obtain ⟨m1, h1, hw1, hinv1⟩ := runBufferCall_mapped_running m w hw hinv c
      obtain ⟨m2, h2, hinv2⟩ := ih m1 hw1 hinv1
      exact ⟨m2, by simp [runBufferCalls, h1, h2], hinv2⟩
  obtain ⟨m1, h1, hinv1⟩ := step calls (LSPManager.new (some w)) rfl (by
    intro id lsp hfind
    simp [LSPManager.new, QMap.find, QMap.empty] at hfind)
  refine ⟨m1, h1, ?_⟩
  intro id lsp hget
  rw [getLSP_eq_find] at hget
  exact hinv1 id lsp hget

/-- C27 at a sample input: a Go, a C++ and a Ruby buffer attached, with a reload in between. -/
theorem mapped_clients_running_witness :
    ∃ m1, (LSPManager.new (some sampleWindow)).runBufferCalls
        [BufferCall.manageBuffer true sampleBuffer, BufferCall.manageBuffer true sampleCppBuffer,
         BufferCall.reload true sampleCppBuffer, BufferCall.manageBuffer true sampleRbBuffer,
         BufferCall.manageBuffer false sampleRbBuffer] = some m1 ∧
      ∀ id lsp, m1.getLSP id = some lsp → lsp ∈ m1.lsps :=
  mapped_clients_running sampleWindow _

/-- C28: with the extension "rb", `manageBuffer` sends `refreshFile` to a client that does not
own the buffer. The first call starts solargraph (client 0, tagged "ruby"), maps the buffer to
it and sends it `openFile`. The second call on the same buffer looks up the tag "rb", finds no
client, starts a second solargraph process (client 1) and, the buffer id being mapped, sends
`refreshFile` to client 1, while the buffer is still mapped to client 0 and client 1 has never
been sent `openFile` for it. -/
theorem manageBuffer_rb_refresh_to_other_client :
    sampleManager.manageBuffer true sampleRbBuffer = some (true, sampleRbManaged) ∧
      sampleRbManaged.getLSP sampleRbBuffer.id =
        some (LSP.generic 0 "/src" "ruby" "solargraph" ["stdio"] []) ∧
      (sampleRbManaged.manageBuffer true sampleRbBuffer).map
          (fun r => r.2.calls.drop sampleRbManaged.calls.length) =
        some [LSPCall.create (LSP.generic 1 "/src" "ruby" "solargraph" ["stdio"] []),
              LSPCall.start (LSP.generic 1 "/src" "ruby" "solargraph" ["stdio"] []) true,
              LSPCall.init (LSP.generic 1 "/src" "ruby" "solargraph" ["stdio"] [])
                sampleRbBuffer.id,
              LSPCall.refreshFile (LSP.generic 1 "/src" "ruby" "solargraph" ["stdio"] [])
                sampleRbBuffer.id] ∧
      (sampleRbManaged.manageBuffer true sampleRbBuffer).map
          (fun r => r.2.getLSP sampleRbBuffer.id) =
        some (some (LSP.generic 0 "/src" "ruby" "solargraph" ["stdio"] [])) ∧
      (sampleRbManaged.manageBuffer true sampleRbBuffer).map
          (fun r => decide (LSPCall.openFile (LSP.generic 1 "/src" "ruby" "solargraph"
            ["stdio"] []) sampleRbBuffer.id ∈ r.2.calls)) = some false := by
  decide

end LSPManager

/-! ## Request ids and the request commands -/

/-- The id drawn from a generated value other than 2^31 is not negative. -/
theorem requestId_nonneg (random : Nat) (h : random < 4294967296) (hne : random ≠ 2147483648) :
    0 ≤ requestId random := by
  simp only [requestId, toInt32]
  split_ifs <;> omega

/-- C24: for a 32-bit value the generator returns, the request id is negative exactly when
that value is 2^31. Converted to `int` it is then -2^31, whose product with -1 wraps back to
-2^31, so the id handed to the request operation and to `setExecutedAction` is -2147483648. -/
theorem requestId_negative_iff (random : Nat) (h : random < 4294967296) :
    (requestId random < 0 ↔ random = 2147483648) ∧
      (random = 2147483648 → requestId random = -2147483648) := by
  simp only [requestId, toInt32]
  constructor
  · constructor
    · intro hneg
      split_ifs at hneg <;> omega
    · intro heq
      subst heq
      decide
  · intro heq
    subst heq
    decide

/-- C24 at the failing input: the generator returns 2147483648 and the command `:def` sends
its request and records its action under the id -2147483648. -/
theorem requestId_negative_iff_witness :
    2147483648 < 4294967296 ∧
      ((requestId 2147483648 < 0 ↔ 2147483648 = 2147483648) ∧
        (2147483648 = 2147483648 → requestId 2147483648 = -2147483648)) ∧
      (Command.executeLsp sampleCommandState ":def" 2147483648 1000 true).map
          (fun s => (s.requests.map LSPRequest.reqId, s.manager.executedActions.keys)) =
        some ([-2147483648], [-2147483648]) :=
  ⟨by decide, requestId_negative_iff 2147483648 (by decide), by decide⟩

namespace Command

/-- A request block whose command is not the one asked for changes nothing. -/
theorem requestBlock_of_not_mem (names : List String) (method : LSPMethod)
    (action : LSPActionKind) (command : String) (lsp : Option LSP) (reqId : Int) (clock : Nat)
    (st : CommandState × Bool) (h : command ∉ names) :
    requestBlock names method action command lsp reqId clock st = st := by
  unfold requestBlock
  split_ifs <;> rfl

/-- The request block of the command asked for, with a client for the current buffer and
`execute` not returned: one request is sent and its action recorded under the same id. -/
theorem requestBlock_of_mem (names : List String) (method : LSPMethod)
    (action : LSPActionKind) (command : String) (client : LSP) (reqId : Int) (clock : Nat)
    (s : CommandState) (h : command ∈ names) :
    requestBlock names method action command (some client) reqId clock (s, false) =
      ({ s with
          requests := s.requests ++
            [{ lsp := client, method := method, reqId := reqId,
               filename := s.editor.buffer.filename,
               line := s.editor.currentLineNumber, column := s.editor.currentColumn }]
          manager := s.manager.setExecutedAction clock reqId action (some s.editor.buffer) },
        false) := by
  simp [requestBlock, h]

/-- The `:err` and `:rlsp` blocks leave a command alone that is none of theirs. -/
theorem tail_blocks_of_other (command : String) (lsp : Option LSP) (ok : Bool)
    (st : CommandState × Bool) (h1 : (":err".data).isPrefixOf command.data = false)
    (h2 : command ≠ ":rlsp") (h3 : command ≠ ":reloadlsp") :
    rlspBlock command ok (errBlock command lsp st) = some st := by
  have he : errBlock command lsp st = st := by
    unfold errBlock
    split_ifs <;> simp_all
  rw [he]
  unfold rlspBlock
  split_ifs with h4 h5
  · rfl
  · rcases h5 with h5 | h5
    · exact absurd h5 h2
    · exact absurd h5 h3
  · rfl

/-- C22: for each of `:def`, `:dec`, `:sig`, `:i`, `:info`, `:ref` and `:com`, executed while
the current buffer has a client, the LSP section of `Command::execute` sends exactly one request
to that client, the one of the command (definition, declaration, signatureHelp, hover, hover,
references, completion) with the id drawn, the file name of the current buffer and the cursor
position, and records the matching action kind and the current buffer under the same id with
`setExecutedAction`; nothing else changes, and `getExecutedAction` of that id then returns that
kind and buffer. -/
theorem executeLsp_records_request (s : CommandState) (w : Window)
    (hw : s.manager.window = some w) (client : LSP)
    (hlsp : s.manager.getLSP s.editor.buffer.id = some client)
    (command : String) (method : LSPMethod) (action : LSPActionKind)
    (hc : (command, method, action) ∈ requestCommands)
    (random clock : Nat) (ok : Bool) :
    executeLsp s command random clock ok =
      some { s with
        requests := s.requests ++
          [{ lsp := client, method := method, reqId := requestId random,
             filename := s.editor.buffer.filename,
             line := s.editor.currentLineNumber, column := s.editor.currentColumn }]
        manager := s.manager.setExecutedAction clock (requestId random) action
          (some s.editor.buffer) } ∧
    ∃ m2, (s.manager.setExecutedAction clock (requestId random) action
        (some s.editor.buffer)).getExecutedAction (requestId random) =
      some ({ requestId := requestId random, action := action,
              buffer := some s.editor.buffer, creationTime := QTime.currentTime clock }, m2) := by
  constructor
  · simp only [requestCommands, List.mem_cons, Prod.mk.injEq, List.mem_singleton,
      List.not_mem_nil, or_false] at hc
    rcases hc with ⟨h1, h2, h3⟩ | ⟨h1, h2, h3⟩ | ⟨h1, h2, h3⟩ | ⟨h1, h2, h3⟩ | ⟨h1, h2, h3⟩ |
      ⟨h1, h2, h3⟩ | ⟨h1, h2, h3⟩ <;> subst h1 h2 h3
    · simp only [executeLsp, hw, hlsp]
      rw [requestBlock_of_mem _ _ _ _ _ _ _ _ (by decide),
        requestBlock_of_not_mem _ _ _ _ _ _ _ _ (by decide),
        requestBlock_of_not_mem _ _ _ _ _ _ _ _ (by decide),
        requestBlock_of_not_mem _ _ _ _ _ _ _ _ (by decide),
        requestBlock_of_not_mem _ _ _ _ _ _ _ _ (by decide),
        requestBlock_of_not_mem _ _ _ _ _ _ _ _ (by decide),
        tail_blocks_of_other _ _ _ _ (by decide) (by decide) (by decide)]
      rfl
    · simp only [executeLsp, hw, hlsp]
      rw [requestBlock_of_not_mem [":def"] _ _ _ _ _ _ _ (by decide),
        requestBlock_of_mem _ _ _ _ _ _ _ _ (by decide),
        requestBlock_of_not_mem _ _ _ _ _ _ _ _ (by decide),
        requestBlock_of_not_mem _ _ _ _ _ _ _ _ (by decide),
        requestBlock_of_not_mem _ _ _ _ _ _ _ _ (by decide),
        requestBlock_of_not_mem _ _ _ _ _ _ _ _ (by decide),
        tail_blocks_of_other _ _ _ _ (by decide) (by decide) (by decide)]
      rfl
    · simp only [executeLsp, hw, hlsp]
      rw [requestBlock_of_not_mem [":def"] _ _ _ _ _ _ _ (by decide),
        requestBlock_of_not_mem [":dec"] _ _ _ _ _ _ _ (by decide),
        requestBlock_of_mem _ _ _ _ _ _ _ _ (by decide),
        requestBlock_of_not_mem _ _ _ _ _ _ _ _ (by decide),
        requestBlock_of_not_mem _ _ _ _ _ _ _ _ (by decide),
        requestBlock_of_not_mem _ _ _ _ _ _ _ _ (by decide),
        tail_blocks_of_other _ _ _ _ (by decide) (by decide) (by decide)]
      rfl
    · simp only [executeLsp, hw, hlsp]
      rw [requestBlock_of_not_mem [":def"] _ _ _ _ _ _ _ (by decide),
        requestBlock_of_not_mem [":dec"] _ _ _ _ _ _ _ (by decide),
        requestBlock_of_not_mem [":sig"] _ _ _ _ _ _ _ (by decide),
        requestBlock_of_mem _ _ _ _ _ _ _ _ (by decide),
        requestBlock_of_not_mem _ _ _ _ _ _ _ _ (by decide),
        requestBlock_of_not_mem _ _ _ _ _ _ _ _ (by decide),
        tail_blocks_of_other _ _ _ _ (by decide) (by decide) (by decide)]
      rfl
    · simp only [executeLsp, hw, hlsp]
      rw [requestBlock_of_not_mem [":def"] _ _ _ _ _ _ _ (by decide),
        requestBlock_of_not_mem [":dec"] _ _ _ _ _ _ _ (by decide),
        requestBlock_of_not_mem [":sig"] _ _ _ _ _ _ _ (by decide),
        requestBlock_of_mem _ _ _ _ _ _ _ _ (by decide),
        requestBlock_of_not_mem _ _ _ _ _ _ _ _ (by decide),
        requestBlock_of_not_mem _ _ _ _ _ _ _ _ (by decide),
        tail_blocks_of_other _ _ _ _ (by decide) (by decide) (by decide)]
      rfl
    · simp only [executeLsp, hw, hlsp]
      rw [requestBlock_of_not_mem [":def"] _ _ _ _ _ _ _ (by decide),
        requestBlock_of_not_mem [":dec"] _ _ _ _ _ _ _ (by decide),
        requestBlock_of_not_mem [":sig"] _ _ _ _ _ _ _ (by decide),
        requestBlock_of_not_mem [":i", ":info"] _ _ _ _ _ _ _ (by decide),
        requestBlock_of_mem _ _ _ _ _ _ _ _ (by decide),
        requestBlock_of_not_mem _ _ _ _ _ _ _ _ (by decide),
        tail_blocks_of_other _ _ _ _ (by decide) (by decide) (by decide)]
      rfl
    · simp only [executeLsp, hw, hlsp]
      rw [requestBlock_of_not_mem [":def"] _ _ _ _ _ _ _ (by decide),
        requestBlock_of_not_mem [":dec"] _ _ _ _ _ _ _ (by decide),
        requestBlock_of_not_mem [":sig"] _ _ _ _ _ _ _ (by decide),
        requestBlock_of_not_mem [":i", ":info"] _ _ _ _ _ _ _ (by decide),
        requestBlock_of_not_mem [":ref"] _ _ _ _ _ _ _ (by decide),
        requestBlock_of_mem _ _ _ _ _ _ _ _ (by decide),
        tail_blocks_of_other _ _ _ _ (by decide) (by decide) (by decide)]
      rfl
  · have hw2 : (s.manager.setExecutedAction clock (requestId random) action
        (some s.editor.buffer)).window.isSome = true := by
      rw [LSPManager.window_isSome_setExecutedAction, hw]; rfl
    obtain ⟨m2, h2, _, _⟩ := LSPManager.getExecutedAction_of_find _ (requestId random) _ hw2
      (LSPManager.find_setExecutedAction s.manager clock (requestId random) action
        (some s.editor.buffer))
    exact ⟨m2, h2⟩

/-- C22 at a sample input: `:info` typed in the Go buffer, which the gopls client handles. -/
theorem executeLsp_records_request_witness :
    sampleCommandState.manager.window = some sampleWindow ∧
    sampleCommandState.manager.getLSP sampleCommandState.editor.buffer.id =
      some (LSP.generic 0 "/src" "go" "gopls" [] []) ∧
    (":info", LSPMethod.hover, LSP_ACTION_HOVER) ∈ requestCommands ∧
    (executeLsp sampleCommandState ":info" 77 1000 true =
      some { sampleCommandState with
        requests := sampleCommandState.requests ++
          [{ lsp := LSP.generic 0 "/src" "go" "gopls" [] [], method := LSPMethod.hover,
             reqId := requestId 77,
             filename := sampleCommandState.editor.buffer.filename,
             line := sampleCommandState.editor.currentLineNumber,
             column := sampleCommandState.editor.currentColumn }]
        manager := sampleCommandState.manager.setExecutedAction 1000 (requestId 77)
          LSP_ACTION_HOVER (some sampleCommandState.editor.buffer) } ∧
    ∃ m2, (sampleCommandState.manager.setExecutedAction 1000 (requestId 77) LSP_ACTION_HOVER
        (some sampleCommandState.editor.buffer)).getExecutedAction (requestId 77) =
      some ({ requestId := requestId 77, action := LSP_ACTION_HOVER,
              buffer := some sampleCommandState.editor.buffer,
              creationTime := QTime.currentTime 1000 }, m2)) :=
  ⟨by decide, by decide, by decide,
    executeLsp_records_request sampleCommandState sampleWindow (by decide)
      (LSP.generic 0 "/src" "go" "gopls" [] []) (by decide) ":info" LSPMethod.hover
      LSP_ACTION_HOVER (by decide) 77 1000 true⟩

end Command

/-! ## Re-attaching the buffer on reload -/

namespace LSPManager

/-- A launch returns a client exactly when the process starts. -/
theorem launch_fst_isSome (m : LSPManager) (ok : Bool) (b : Buffer) (mk : Nat → LSP) :
    (m.launch ok b mk).1.isSome = ok := by
  cases ok <;> simp [launch]

/-- On a manager with a window, `start` returns a client exactly when the tag is a supported
one and the process starts. -/
theorem start_isSome_iff {m m1 : LSPManager} {w : Window} (hw : m.window = some w) {ok : Bool}
    {b : Buffer} {language : String} {o : Option LSP}
    (h : m.start ok b language = some (o, m1)) :
    o.isSome = true ↔ (language ∈ supportedLanguages ∧ ok = true) := by
  have key : ∀ mk : Nat → LSP, language ∈ supportedLanguages →
      some (m.launch ok b mk) = some (o, m1) →
      (o.isSome = true ↔ (language ∈ supportedLanguages ∧ ok = true)) := by
    intro mk hs heq
    simp only [Option.some.injEq] at heq
    have h1 : o = (m.launch ok b mk).1 := by rw [heq]
    rw [h1, launch_fst_isSome]
    exact ⟨fun hok => ⟨hs, hok⟩, fun hboth => hboth.2⟩
  unfold start at h
  simp only [hw] at h
  split_ifs at h with h1 h2 h3 h4
  · exact key _ (by subst h1; decide) h
  · exact key _ (by rcases h2 with h2 | h2 <;> subst h2 <;> decide) h
  · exact key _ (by rcases h3 with h3 | h3 <;> subst h3 <;> decide) h
  · exact key _ (by subst h4; decide) h
  · simp only [Option.some.injEq, Prod.mk.injEq] at h
    obtain ⟨ho, _⟩ := h
    subst ho
    have hns : language ∉ supportedLanguages := by
      simp only [supportedLanguages, List.mem_cons, List.mem_singleton, List.not_mem_nil,
        or_false, not_or]
      exact ⟨h1, fun h => h2 (Or.inl h), fun h => h2 (Or.inr h), fun h => h3 (Or.inl h),
        fun h => h3 (Or.inr h), h4⟩
    simp [hns]

/-- On a manager with a window, `manageBuffer` returns true exactly when a client is resolved:
`forLanguage` finds one, or the extension is a supported tag and the process `start` launches
starts. -/
theorem manageBuffer_true_iff {m m1 : LSPManager} {w : Window} (hw : m.window = some w)
    {ok r : Bool} {b : Buffer} (h : m.manageBuffer ok b = some (r, m1)) :
    r = true ↔ ((m.forLanguage (suffix b.filename)).isSome = true ∨
      (suffix b.filename ∈ supportedLanguages ∧ ok = true)) := by
  unfold manageBuffer at h
  simp only [hw] at h
  cases hf : m.forLanguage (suffix b.filename) with
  | some lsp =>
    simp only [hf] at h
    split_ifs at h <;> simp only [Option.some.injEq, Prod.mk.injEq] at h <;>
      (obtain ⟨hr, _⟩ := h; subst hr; simp)
  | none =>
    simp only [hf] at h
    cases hs : m.start ok b (suffix b.filename) with
    | none => simp [hs] at h
    | some p =>
      obtain ⟨o, m0⟩ := p
      have hiff := start_isSome_iff hw hs
      cases o with
      | none =>
        simp only [hs, Option.some.injEq, Prod.mk.injEq] at h
        obtain ⟨hr, _⟩ := h
        subst hr
        simp only [Option.isSome_none, Bool.false_eq_true, false_iff] at hiff
        simp [hiff]
      | some lsp =>
        simp only [hs] at h
        have hboth := hiff.mp rfl
        split_ifs at h <;> simp only [Option.some.injEq, Prod.mk.injEq] at h <;>
          (obtain ⟨hr, _⟩ := h; subst hr; simp [hboth])

/-- C12: on every manager with a window, whatever its buffer-to-client map, `reload(buffer)`
returns the state its `manageBuffer(buffer)` call leaves, and that call sees the buffer as
unmapped. It resolves a client exactly when one of the clients left by the deletion loop has
the tag looked up for the buffer's extension, or the extension is a supported tag and the
process starts. When a client is resolved, the map holds exactly the entry of the buffer, for
that client (the one `forLanguage` found, if it found one), which is running and whose
`openFile` of the buffer is the last call and the only file call made. When none is resolved,
the map is empty and no file call is made. In both cases no other buffer id is mapped and no
`refreshFile` is sent. -/
theorem reload_reattaches (m : LSPManager) (w : Window) (hw : m.window = some w) (ok : Bool)
    (b : Buffer) :
    ∃ r m1 cs, m.reloadPrepared.manageBuffer ok b = some (r, m1) ∧
      m.reload ok b = some m1 ∧ m1.calls = m.calls ++ cs ∧
      (∀ id, id ≠ b.id → m1.getLSP id = none) ∧
      (∀ l id, LSPCall.refreshFile l id ∉ cs) ∧
      (r = true ↔ ((m.reloadPrepared.forLanguage (suffix b.filename)).isSome = true ∨
        (suffix b.filename ∈ supportedLanguages ∧ ok = true))) ∧
      (r = true →
        ∃ lsp cs0, cs = cs0 ++ [LSPCall.openFile lsp b.id] ∧
          (∀ c ∈ cs0, c.isFileCall = false) ∧
          m1.lspsPerFile = (QMap.empty : QMap String LSP).insert b.id lsp ∧
          m1.getLSP b.id = some lsp ∧ lsp ∈ m1.lsps ∧
          (∀ found, m.reloadPrepared.forLanguage (suffix b.filename) = some found →
            lsp = found)) ∧
      (r = false → m1.lspsPerFile = QMap.empty ∧ m1.getLSP b.id = none ∧
        ∀ c ∈ cs, c.isFileCall = false) := by
  obtain ⟨r, m1, cs, h1, _, _, _, _, h6, h7⟩ :=
    manageBuffer_full m.reloadPrepared w hw ok b
  obtain ⟨ds, hds, hdsf⟩ := calls_reloadPrepared m
  have hret : m.reload ok b = some m1 := by rw [reload_eq_manageBuffer, h1]; rfl
  have hiff := manageBuffer_true_iff (m := m.reloadPrepared) hw h1
  have hall : ∀ c ∈ ds ++ cs, c.isFileCall = false := by
    intro c hc
    rcases List.mem_append.mp hc with hc | hc
    · exact hdsf c hc
    · exact h6 c hc
  rcases h7 (contains_reloadPrepared m b.id) with ⟨hr, hmap, hcalls⟩ | ⟨hr, lsp, hmem, hmap, hcalls⟩
  · have hmap1 : m1.lspsPerFile = QMap.empty := hmap
    have hnone : ∀ id, m1.getLSP id = none := by
      intro id
      rw [getLSP_eq_find, hmap1]
      rfl
    refine ⟨r, m1, ds ++ cs, h1, hret, by rw [hcalls, hds, List.append_assoc],
      fun id _ => hnone id, ?_, hiff, ?_, ?_⟩
    · intro l id hmem
      have := hall _ hmem
      simp [LSPCall.isFileCall] at this
    · intro hr1
      rw [hr] at hr1
      exact absurd hr1 (by decide)
    · intro _
      exact ⟨hmap1, hnone b.id, hall⟩
  · have hmap1 : m1.lspsPerFile = (QMap.empty : QMap String LSP).insert b.id lsp := hmap
    have hget : m1.getLSP b.id = some lsp := by
      rw [getLSP_eq_find, hmap1, QMap.find_insert_self]
    refine ⟨r, m1, (ds ++ cs) ++ [LSPCall.openFile lsp b.id], h1, hret,
      by rw [hcalls, hds]; simp, ?_, ?_, hiff, ?_, ?_⟩
    · intro id hid
      rw [getLSP_eq_find, hmap1, QMap.find_insert_of_ne _ _ (fun h => hid h.symm)]
      rfl
    · intro l id hmem
      rcases List.mem_append.mp hmem with hc | hc
      · have := hall _ hc
        simp [LSPCall.isFileCall] at this
      · simp at hc
    · intro _
      refine ⟨lsp, ds ++ cs, rfl, hall, hmap1, hget, hmem, ?_⟩
      intro found hfound
      have h2 := manageBuffer_of_forLanguage_of_not_contains (m := m.reloadPrepared) ok hw
        hfound (contains_reloadPrepared m b.id)
      rw [h1] at h2
      simp only [Option.some.injEq, Prod.mk.injEq] at h2
      have h3 : m1.getLSP b.id = some found := by
        rw [h2.2, getLSP_eq_find]
        exact QMap.find_insert_self _ _ _
      rw [hget] at h3
      exact Option.some.inj h3
    · intro hr1
      rw [hr] at hr1
      exact absurd hr1 (by decide)

/-- C12 at a sample input: the manager with the gopls and clangd clients, both buffers mapped,
reloaded for the Go buffer, gopls starting again: a client is resolved and the Go buffer is
the only one mapped. -/
theorem reload_reattaches_witness :
    sampleTwoClients.window = some sampleWindow ∧
      (suffix sampleBuffer.filename ∈ supportedLanguages ∧ true = true) ∧
      ∃ r m1 cs, sampleTwoClients.reloadPrepared.manageBuffer true sampleBuffer = some (r, m1) ∧
        sampleTwoClients.reload true sampleBuffer = some m1 ∧
        m1.calls = sampleTwoClients.calls ++ cs ∧
        (∀ id, id ≠ sampleBuffer.id → m1.getLSP id = none) ∧
        (∀ l id, LSPCall.refreshFile l id ∉ cs) ∧
        (r = true ↔
          ((sampleTwoClients.reloadPrepared.forLanguage (suffix sampleBuffer.filename)).isSome
              = true ∨
            (suffix sampleBuffer.filename ∈ supportedLanguages ∧ true = true))) ∧
        (r = true →
          ∃ lsp cs0, cs = cs0 ++ [LSPCall.openFile lsp sampleBuffer.id] ∧
            (∀ c ∈ cs0, c.isFileCall = false) ∧
            m1.lspsPerFile = (QMap.empty : QMap String LSP).insert sampleBuffer.id lsp ∧
            m1.getLSP sampleBuffer.id = some lsp ∧ lsp ∈ m1.lsps ∧
            (∀ found,
              sampleTwoClients.reloadPrepared.forLanguage (suffix sampleBuffer.filename) =
                some found → lsp = found)) ∧
        (r = false → m1.lspsPerFile = QMap.empty ∧ m1.getLSP sampleBuffer.id = none ∧
          ∀ c ∈ cs, c.isFileCall = false) :=
  ⟨by decide, by decide,
    reload_reattaches sampleTwoClients sampleWindow (by decide) true sampleBuffer⟩

/-- The reload of the sample input for the Go buffer evaluated: the call resolves a client, the
map holds the Go buffer only, mapped to the gopls client started by the reload, and `openFile`
is the last call. -/
theorem reload_reattaches_sample_trace :
    (sampleTwoClients.reloadPrepared.manageBuffer true sampleBuffer).map Prod.fst = some true ∧
      (sampleTwoClients.reload true sampleBuffer).map (fun m => m.lspsPerFile.entries) =
        some [(sampleBuffer.id, LSP.generic 2 "/src" "go" "gopls" [] [])] ∧
      (sampleTwoClients.reload true sampleBuffer).map (fun m => m.calls.getLast?) =
        some (some (LSPCall.openFile (LSP.generic 2 "/src" "go" "gopls" [] [])
          sampleBuffer.id)) ∧
      (sampleTwoClients.reload false sampleBuffer).map (fun m => m.lspsPerFile.entries) =
        some [] := by
  decide

end LSPManager

end Meh
